import Mathlib

/-!
Verification development for the Hikvision biometric-attendance integration.

The development shallow-embeds the three cores of the repository:

* the attendance ingest engine
  (`_sync_for_single_device` in
  `biometric_integration/doctype/biometric_integration_settings/biometric_integration_settings.py`),
* the punch-to-checkin reducer
  (`sync_punches_to_employee_checkin` in `employee_checkin_sync.py`), and
* the daily-report duration computation
  (`calculate_total_minutes` / `format_minutes_to_hhmm` in
  `biometric_integration/report/biometric_daily_report/biometric_daily_report.py`).

Conventions of the embedding:

* Times of day are seconds since midnight (`Nat`); dates are their canonical
  `YYYY-MM-DD` strings.  Device timestamps are the raw strings the device
  sends; the Python side parses `event_timestamp[:19]` with
  `datetime.strptime(..., "%Y-%m-%dT%H:%M:%S")`, which is embedded faithfully
  (including the truncation to 19 characters that drops fractional seconds
  and the UTC offset).
* Database rows are records in lists; `frappe` name assignment is modelled by
  a running `Nat` counter.  External effects that can fail (`doc.save`,
  `checkin.insert`) are driven by a boolean oracle indexed by the number of
  attempts made so far, so both the failure-free and faulty executions of
  the source are instances of one definition.
* Geolocation values (`latitude`/`longitude` stamped on checkins) are copied
  from a process-wide lookup with a fixed fallback and are not inspected by
  any property below, so the fields are left out of the `Checkin` record.
* HTTP transport always answers 200 in this model; none of the properties
  below concern transport failures.  The device is a pair of the
  `totalMatches` figure its first response reports and the full ordered
  event list from which pages are served position-based, exactly as
  `searchResultPosition`/`maxResults` slices do.
-/

/-! ### Device events and timestamp parsing -/

/-- One element of the device response `AcsEvent.InfoList`. -/
structure AcsEvent where
  employeeNoString : String
  time : String
  deriving DecidableEq, Repr

/-- Numeric value of two decimal digit characters, `none` if either is not a digit. -/
def dig2 (a b : Char) : Option Nat :=
  if a.isDigit ∧ b.isDigit then some ((a.toNat - 48) * 10 + (b.toNat - 48)) else none

/-- Numeric value of four decimal digit characters. -/
def dig4 (a b c d : Char) : Option Nat :=
  match dig2 a b, dig2 c d with
  | some hi, some lo => some (hi * 100 + lo)
  | _, _ => none

/-- Gregorian leap-year test, as `calendar.isleap` / `datetime` use it. -/
def isLeapYear (y : Nat) : Bool :=
  (y % 4 == 0 && y % 100 != 0) || y % 400 == 0

/-- Number of days of month `m` in year `y`. -/
def daysInMonth (y m : Nat) : Nat :=
  if m = 2 then (if isLeapYear y then 29 else 28)
  else if m = 4 ∨ m = 6 ∨ m = 9 ∨ m = 11 then 30
  else 31

/-- Embeds `datetime.strptime(event_timestamp[:19], "%Y-%m-%dT%H:%M:%S")`.

Returns the event date as its `YYYY-MM-DD` string together with the
time of day in seconds since midnight, or `none` when `strptime` would
raise `ValueError`.  Only the first 19 characters of the device timestamp
participate, so fractional seconds and the UTC offset are discarded. -/
def parseDeviceTime (s : String) : Option (String × Nat) :=
  match (s.take 19).toList with
  | [y1, y2, y3, y4, c1, mo1, mo2, c2, d1, d2, c3, h1, h2, c4, mi1, mi2, c5, se1, se2] =>
    match dig4 y1 y2 y3 y4, dig2 mo1 mo2, dig2 d1 d2, dig2 h1 h2, dig2 mi1 mi2, dig2 se1 se2 with
    | some y, some mo, some d, some h, some mi, some se =>
      if c1 = '-' ∧ c2 = '-' ∧ c3 = 'T' ∧ c4 = ':' ∧ c5 = ':' ∧
          1 ≤ mo ∧ mo ≤ 12 ∧ 1 ≤ d ∧ d ≤ daysInMonth y mo ∧ h ≤ 23 ∧ mi ≤ 59 ∧ se ≤ 59 then
        some (String.mk [y1, y2, y3, y4, c1, mo1, mo2, c2, d1, d2], h * 3600 + mi * 60 + se)
      else none
    | _, _, _, _, _, _ => none
  | _ => none

/-! ### Persisted attendance data -/

/-- One row of `Biometric Attendance Punch Table` (child of an attendance log). -/
structure BPunch where
  name : Nat
  punch_time : Nat
  punch_type : String
  device_id : Option String
  synced_to_employee_checkin : Bool
  employee_checkin : Option Nat
  deriving DecidableEq, Repr

/-- One `Biometric Attendance Log` document with its child punch table. -/
structure BLog where
  name : Nat
  employee_no : String
  event_date : String
  device_id : Option String
  punch_table : List BPunch
  deriving DecidableEq, Repr

/-- Total number of punches persisted across all logs. -/
def punchCount (logs : List BLog) : Nat :=
  (logs.map (fun l => l.punch_table.length)).sum

/-! ### Ingest engine state -/

/-- Which optional columns exist, per the `frappe.db.has_column` probes of
`_sync_for_single_device`. -/
structure IFlags where
  log_has_device_id : Bool
  punch_has_device_id : Bool
  deriving DecidableEq, Repr

/-- Mutable state of one `_sync_for_single_device` run: the persisted logs,
the `count` / `skipped` counters, the number of `doc.save` attempts made so
far (index into the failure oracle) and the next fresh document name. -/
structure ISt where
  logs : List BLog
  count : Nat
  skipped : Nat
  tick : Nat
  nextId : Nat
  deriving DecidableEq, Repr

/-- Errors `_sync_for_single_device` can raise:
`frappe.throw` on too many records, and the uncaught `ValueError` that
`datetime.strptime` raises on a malformed non-empty timestamp. -/
inductive IErr where
  | tooManyRecords (label : String) (total : Nat)
  | strptimeValueError
  | outOfFuel
  deriving DecidableEq, Repr

/-- Result of an ingest run; an error still carries the store as persisted at
the moment the exception was raised. -/
inductive IRes where
  | ok (s : ISt)
  | err (s : ISt) (e : IErr)
  deriving DecidableEq, Repr

/-- Replaces the first log whose `(employee_no, event_date)` equals the given
key by `doc` (the saved document), as writing back the fetched document does. -/
def replaceLog (emp date : String) (doc : BLog) : List BLog → List BLog
  | [] => []
  | l :: ls =>
    if l.employee_no = emp ∧ l.event_date = date then doc :: ls
    else l :: replaceLog emp date doc ls

/-- Embeds the body of the per-event loop of `_sync_for_single_device`
(lines 125-187 of `biometric_integration_settings.py`): skip events with a
missing employee number or timestamp, parse the timestamp, fetch or create
the attendance log for `(employee_no, date)`, check for an existing punch
with the same time of day, and either count a duplicate or append and save a
new `Auto` punch (a save failure is caught and counted nowhere). -/
def processEvent (ip : String) (flags : IFlags) (failAt : Nat → Bool)
    (s : ISt) (ev : AcsEvent) : IRes :=
  if ev.employeeNoString = "" ∨ ev.time = "" then .ok s
  else
    match parseDeviceTime ev.time with
    | none => .err s .strptimeValueError
    | some (date, tod) =>
      let emp := ev.employeeNoString
      let found := s.logs.find? (fun l => l.employee_no = emp ∧ l.event_date = date)
      let doc : BLog :=
        match found with
        | some l => l
        | none => { name := s.nextId + 1, employee_no := emp, event_date := date,
                    device_id := none, punch_table := [] }
      let doc := { doc with device_id :=
        if flags.log_has_device_id then some ip else doc.device_id }
      let existing_punch := doc.punch_table.any (fun p => p.punch_time = tod)
      if existing_punch then
        .ok { s with skipped := s.skipped + 1 }
      else
        let punch_row : BPunch :=
          { name := s.nextId, punch_time := tod, punch_type := "Auto",
            device_id := if flags.punch_has_device_id then some ip else none,
            synced_to_employee_checkin := false, employee_checkin := none }
        let doc := { doc with punch_table := doc.punch_table ++ [punch_row] }
        if failAt s.tick then
          -- doc.save raised: frappe.log_error, continue with the next event
          .ok { s with tick := s.tick + 1 }
        else
          let logs :=
            match found with
            | some _ => replaceLog emp date doc s.logs
            | none => s.logs ++ [doc]
          .ok { logs := logs, count := s.count + 1, skipped := s.skipped,
                tick := s.tick + 1, nextId := s.nextId + 2 }

/-- Runs the per-event loop over a list of events, short-circuiting on an
uncaught exception. -/
def processEvents (ip : String) (flags : IFlags) (failAt : Nat → Bool)
    (s : ISt) : List AcsEvent → IRes
  | [] => .ok s
  | ev :: evs =>
    match processEvent ip flags failAt s ev with
    | .ok s1 => processEvents ip flags failAt s1 evs
    | .err s1 e => .err s1 e

/-- Model of one device: the `totalMatches` figure reported by the initial
`maxResults = 1` probe, and the ordered event stream from which every later
page is served by position. -/
structure Device where
  totalMatches : Nat
  events : List AcsEvent
  deriving DecidableEq, Repr

/-- Page served for `searchResultPosition = position`, `maxResults = n`. -/
def fetchPage (dev : Device) (position n : Nat) : List AcsEvent :=
  (dev.events.drop position).take n

/-- Fixed batch size of the pagination loop. -/
def batch_size : Nat := 30

/-- Embeds the `while True` pagination loop of `_sync_for_single_device`
(lines 100-192): request a page at the current position, stop on an empty
page, process its events, advance the position by the number of events
actually returned, and stop when a page is shorter than the batch size.
Structural recursion on `fuel`; `syncForSingleDevice` supplies enough fuel
for the loop to always terminate on its own tests. -/
def syncLoop (ip : String) (flags : IFlags) (failAt : Nat → Bool) (dev : Device) :
    Nat → Nat → ISt → IRes
  | 0, _, s => .err s .outOfFuel
  | fuel + 1, position, s =>
    let events := fetchPage dev position batch_size
    if events = [] then .ok s
    else
      match processEvents ip flags failAt s events with
      | .err s1 e => .err s1 e
      | .ok s1 =>
        if events.length < batch_size then .ok s1
        else syncLoop ip flags failAt dev fuel (position + events.length) s1

/-- Embeds `_sync_for_single_device`: the initial probe reads `totalMatches`;
zero means an immediate `(0, 0)`; more than 1500 raises before anything is
written; otherwise the pagination loop runs from position 0. -/
def syncForSingleDevice (label ip : String) (flags : IFlags) (failAt : Nat → Bool)
    (dev : Device) (nextId : Nat) (logs : List BLog) : IRes :=
  let s0 : ISt := { logs := logs, count := 0, skipped := 0, tick := 0, nextId := nextId }
  if dev.totalMatches = 0 then .ok s0
  else if dev.totalMatches > 1500 then .err s0 (.tooManyRecords label dev.totalMatches)
  else syncLoop ip flags failAt dev (dev.events.length + 1) 0 s0

/-! ### Daily report duration helpers -/

/-- Embeds `calculate_total_minutes`: iterate over consecutive pairs
`(0,1), (2,3), ...` of the punch list (`range(0, len(punches) - 1, 2)`),
truncate each endpoint to whole minutes (`int(t.total_seconds() / 60)`) and
sum the differences.  Punch times are seconds since midnight. -/
def calculate_total_minutes : List Nat → Int
  | t_in :: t_out :: rest =>
    ((t_out / 60 : Nat) : Int) - ((t_in / 60 : Nat) : Int) + calculate_total_minutes rest
  | _ => 0

/-- Formats an integer with Python `f"{n:02}"` semantics. -/
def pad2 (n : Int) : String :=
  if 0 ≤ n ∧ n < 10 then "0" ++ toString n else toString n

/-- Embeds `format_minutes_to_hhmm`: Python `divmod(minutes, 60)` is floored
division, i.e. `Int.ediv` / `Int.emod` for the positive modulus 60. -/
def format_minutes_to_hhmm (minutes : Int) : String :=
  pad2 (minutes / 60) ++ ":" ++ pad2 (minutes % 60)

/-- Embeds the duration cell of one report row (`execute`, lines 103-112):
an odd punch count yields the sentinel `"Check"`, an even one the formatted
total of `calculate_total_minutes`. -/
def rowTotalDuration (punches : List Nat) : String :=
  if punches.length % 2 ≠ 0 then "Check"
  else format_minutes_to_hhmm (calculate_total_minutes punches)

/-- Specification-side duration: the sum over consecutive punch pairs
`(0,1), (2,3), ...` of the pair difference expressed in minutes.  Stated from
the words of the spec for comparison with `calculate_total_minutes`. -/
def durationSpecMinutes : List Nat → Int
  | t_in :: t_out :: rest =>
    ((t_out : Int) - (t_in : Int)) / 60 + durationSpecMinutes rest
  | _ => 0

/-! ### Checkin reducer data model -/

/-- Employee Identity Mapping row: what
`frappe.db.get_value("Employee", {"attendance_device_id": emp_no}, ["name", "status"])`
reads. -/
structure EmployeeRec where
  name : String
  attendance_device_id : String
  status : String
  deriving DecidableEq, Repr

/-- One `Employee Checkin` document as the reducer creates it.  The
geolocation columns are stamped with the process-wide pair and never read by
any property here, so they are not modelled.  `date`/`tod` together are the
`time` datetime built from `f"{event_date} {punch_time}"`. -/
structure Checkin where
  name : Nat
  employee : String
  date : String
  tod : Nat
  log_type : String
  device_id : Option String
  biometric_log : Option Nat
  biometric_punch : Option Nat
  deriving DecidableEq, Repr

/-- The store as the reducer sees it: attendance logs with punch tables,
checkins, and the read-only employee mapping. -/
structure RStore where
  logs : List BLog
  checkins : List Checkin
  employees : List EmployeeRec
  deriving DecidableEq, Repr

/-- Optional-column probes of `sync_punches_to_employee_checkin` (the
geolocation column flags only gate fields that are not modelled). -/
structure RFlags where
  punch_has_employee_checkin : Bool
  checkin_has_biometric_log : Bool
  checkin_has_biometric_punch : Bool
  checkin_has_device_id : Bool
  deriving DecidableEq, Repr

/-- One row of the unsynced-punch join (the `frappe.db.sql` SELECT of
`sync_punches_to_employee_checkin`, lines 79-97). -/
structure Row where
  punch_name : Nat
  punch_time : Nat
  punch_type : String
  punch_device_id : Option String
  log_name : Nat
  employee_no : String
  event_date : String
  log_device_id : Option String
  deriving DecidableEq, Repr

/-- Join row for one punch of one log. -/
def rowOf (l : BLog) (p : BPunch) : Row :=
  { punch_name := p.name, punch_time := p.punch_time, punch_type := p.punch_type,
    punch_device_id := p.device_id, log_name := l.name, employee_no := l.employee_no,
    event_date := l.event_date, log_device_id := l.device_id }

/-- Boolean form of the `ORDER BY l.employee_no, l.event_date, p.punch_time`
lexicographic comparison (ties are left in an arbitrary but fixed order, as
SQL does not specify them). -/
def rowLeB (a b : Row) : Bool :=
  if a.employee_no ≠ b.employee_no then decide (a.employee_no.data < b.employee_no.data)
  else if a.event_date ≠ b.event_date then decide (a.event_date.data < b.event_date.data)
  else a.punch_time ≤ b.punch_time

/-- Ordering used to embed the SQL ORDER BY. -/
def rowLe (a b : Row) : Prop := rowLeB a b = true

instance : DecidableRel rowLe := fun a b =>
  inferInstanceAs (Decidable (rowLeB a b = true))

/-- The SELECT of the reducer: every unsynced punch joined to its parent log,
ordered by `(employee_no, event_date, punch_time)`. -/
def selectUnsynced (store : RStore) : List Row :=
  let rows := store.logs.flatMap
    (fun l => (l.punch_table.filter (fun p => ¬p.synced_to_employee_checkin)).map (rowOf l))
  List.insertionSort rowLe rows

/-- Embeds `groups.setdefault(key, []).append(p)` over a Python dict: rows
are appended to their key's list, keys appear in first-encounter order. -/
def addRowToGroups (groups : List ((String × String) × List Row)) (r : Row) :
    List ((String × String) × List Row) :=
  match groups with
  | [] => [((r.employee_no, r.event_date), [r])]
  | (k, rs) :: rest =>
    if k = (r.employee_no, r.event_date) then (k, rs ++ [r]) :: rest
    else (k, rs) :: addRowToGroups rest r

/-- Grouping of the unsynced rows by `(employee_no, event_date)`. -/
def buildGroups (rows : List Row) : List ((String × String) × List Row) :=
  rows.foldl addRowToGroups []

/-- Time ordering used by `group_punches.sort(key=...)`. -/
def timeLe (a b : Row) : Prop := a.punch_time ≤ b.punch_time

instance : DecidableRel timeLe := fun a b =>
  inferInstanceAs (Decidable (a.punch_time ≤ b.punch_time))

instance : IsTotal Row timeLe := ⟨fun x y => Nat.le_total x.punch_time y.punch_time⟩

instance : IsTrans Row timeLe := ⟨fun _ _ _ h1 h2 => Nat.le_trans h1 h2⟩

/-- Embeds `group_punches.sort(key=lambda x: x["punch_time"] or "")`.

The sort key is the `timedelta` punch time, except that a zero time of day is
falsy in Python and is replaced by the empty string.  A list that mixes the
two key types raises `TypeError` as soon as CPython compares a `str` with a
`timedelta`, which it does for any list of length at least two containing
both kinds; a homogeneous list sorts by the key (all keys equal for the
all-zero case, so the list is unchanged).  `none` models the raised
`TypeError`.  Tie order among equal times is irrelevant here because the SQL
feeding the group already leaves ties unspecified. -/
def pySortRows (rows : List Row) : Option (List Row) :=
  if rows.length ≤ 1 then some rows
  else if rows.all (fun r => r.punch_time ≠ 0) then some (List.insertionSort timeLe rows)
  else if rows.all (fun r => r.punch_time = 0) then some rows
  else none

/-! ### Checkin reducer -/

/-- State threaded through one reducer run: the store, the `created` and
`already_synced` counters, and the number of `checkin.insert` attempts made
so far (index into the insert failure oracle). -/
structure RState where
  store : RStore
  created : Nat
  already_synced : Nat
  insTick : Nat
  deriving DecidableEq, Repr

/-- Exceptions a reducer run can raise: the `TypeError` of the mixed-key
sort, and an exception out of `checkin.insert` (which the reducer does not
catch). -/
inductive RErr where
  | sortTypeError
  | insertFailed
  deriving DecidableEq, Repr

/-- Result of a reducer run; an error carries the store as persisted at the
moment the exception was raised, and no counters are returned. -/
inductive RRes where
  | ok (st : RState)
  | err (st : RState) (e : RErr)
  deriving DecidableEq, Repr

/-- Applies `f` to the punch named `pn` wherever it sits, as
`frappe.db.set_value("Biometric Attendance Punch Table", pn, ...)` does. -/
def updatePunch (store : RStore) (pn : Nat) (f : BPunch → BPunch) : RStore :=
  { store with logs := store.logs.map (fun l =>
      { l with punch_table := l.punch_table.map (fun p => if p.name = pn then f p else p) }) }

/-- Field update of `set_value(..., "synced_to_employee_checkin", 1)`. -/
def setSynced (p : BPunch) : BPunch :=
  { p with synced_to_employee_checkin := true }

/-- Field update of the post-insert `set_value` with the optional back-link. -/
def setSyncedLink (hasLink : Bool) (checkinName : Nat) (p : BPunch) : BPunch :=
  { p with synced_to_employee_checkin := true,
           employee_checkin := if hasLink then some checkinName else p.employee_checkin }

/-- Embeds `frappe.db.exists("Employee Checkin", {"employee": ..., "time": ...})`. -/
def checkinExists (store : RStore) (employee date : String) (tod : Nat) : Bool :=
  store.checkins.any (fun c => c.employee = employee ∧ c.date = date ∧ c.tod = tod)

/-- Python falsy-aware `punch.get("punch_device_id") or punch.get("log_device_id")`. -/
def orFalsy : Option String → Option String → Option String
  | some s, b => if s = "" then b else some s
  | none, b => b

/-- Truthiness of the resulting device id (`if checkin_has_device_id and device_id`). -/
def truthy : Option String → Bool
  | some s => s ≠ ""
  | none => false

/-- Embeds the closure `_create_checkin_for_punch` (lines 139-199 of
`employee_checkin_sync.py`): if a checkin for the exact `(employee, time)`
already exists, bump `already_synced` and mark the punch synced; otherwise
insert a new checkin (the uncaught insert failure aborts the run), then mark
the punch synced with the optional back-link and bump `created`. -/
def create_checkin_for_punch (flags : RFlags) (insFail : Nat → Bool) (employee : String)
    (st : RState) (punch : Row) (log_type : String) : RRes :=
  if checkinExists st.store employee punch.event_date punch.punch_time then
    .ok { st with already_synced := st.already_synced + 1,
                  store := updatePunch st.store punch.punch_name setSynced }
  else if insFail st.insTick then
    .err { st with insTick := st.insTick + 1 } .insertFailed
  else
    let cName := st.store.checkins.length
    let dev := orFalsy punch.punch_device_id punch.log_device_id
    let c : Checkin :=
      { name := cName, employee := employee, date := punch.event_date,
        tod := punch.punch_time, log_type := log_type,
        device_id := if flags.checkin_has_device_id ∧ truthy dev then dev else none,
        biometric_log := if flags.checkin_has_biometric_log then some punch.log_name else none,
        biometric_punch := if flags.checkin_has_biometric_punch then some punch.punch_name else none }
    let store1 := { st.store with checkins := st.store.checkins ++ [c] }
    .ok { store := updatePunch store1 punch.punch_name
            (setSyncedLink flags.punch_has_employee_checkin cName),
          created := st.created + 1, already_synced := st.already_synced,
          insTick := st.insTick + 1 }

/-- Embeds the body of the per-group loop of
`sync_punches_to_employee_checkin` (lines 111-220): skip a group with an
empty employee number, an unknown `attendance_device_id`, or a non-Active
employee; otherwise sort the group by time of day, create the IN checkin for
the first punch, the OUT checkin for the last punch when it is a different
row, and mark the strictly-middle punches synced without creating anything. -/
def processGroup (flags : RFlags) (insFail : Nat → Bool) (st : RState)
    (g : (String × String) × List Row) : RRes :=
  let emp_no := g.1.1
  if emp_no = "" then .ok st
  else
    match st.store.employees.find? (fun e => e.attendance_device_id = emp_no) with
    | none => .ok st
    | some emp_row =>
      if emp_row.status ≠ "Active" then .ok st
      else
        let employee := emp_row.name
        match pySortRows g.2 with
        | none => .err st .sortTypeError
        | some sorted =>
          match sorted with
          | [] => .ok st
          | first :: _ =>
            let last := sorted.getLastD first
            match create_checkin_for_punch flags insFail employee st first "IN" with
            | .err st1 e => .err st1 e
            | .ok st1 =>
              let res2 :=
                if last.punch_name ≠ first.punch_name then
                  create_checkin_for_punch flags insFail employee st1 last "OUT"
                else .ok st1
              match res2 with
              | .err st2 e => .err st2 e
              | .ok st2 =>
                let middle := sorted.filter
                  (fun p => ¬(p.punch_name = first.punch_name ∨ p.punch_name = last.punch_name))
                .ok (middle.foldl (fun s p =>
                  { s with store := updatePunch s.store p.punch_name setSynced }) st2)

/-- Runs the per-group loop, short-circuiting on an uncaught exception. -/
def processGroups (flags : RFlags) (insFail : Nat → Bool) (st : RState) :
    List ((String × String) × List Row) → RRes
  | [] => .ok st
  | g :: gs =>
    match processGroup flags insFail st g with
    | .ok st1 => processGroups flags insFail st1 gs
    | .err st1 e => .err st1 e

/-- Embeds `sync_punches_to_employee_checkin`: select the unsynced punches
joined to their logs; an empty selection returns `(0, 0)` at once; otherwise
group by `(employee_no, event_date)` and process every group. -/
def sync_punches_to_employee_checkin (flags : RFlags) (insFail : Nat → Bool)
    (store : RStore) : RRes :=
  let rows := selectUnsynced store
  if rows.isEmpty then .ok { store := store, created := 0, already_synced := 0, insTick := 0 }
  else processGroups flags insFail
    { store := store, created := 0, already_synced := 0, insTick := 0 } (buildGroups rows)

/-- Embeds `sync_to_employee_checkin_only`: the reducer's counters are turned
into a message on success; any exception is caught, logged and re-raised as
`frappe.throw`, so no `(created, already_synced)` result is returned. -/
def sync_to_employee_checkin_only (flags : RFlags) (insFail : Nat → Bool)
    (store : RStore) : Except String (RStore × Nat × Nat) :=
  match sync_punches_to_employee_checkin flags insFail store with
  | .ok st => .ok (st.store, st.created, st.already_synced)
  | .err _ _ => .error "Error syncing to Employee Checkin"

/-! ### Result accessors -/

/-- State carried by an ingest result, whether or not an exception was raised. -/
def iState : IRes → ISt
  | .ok s => s
  | .err s _ => s

/-- Whether an ingest run finished without an exception. -/
def iIsOk : IRes → Bool
  | .ok _ => true
  | .err _ _ => false

/-- State carried by a reducer result, whether or not an exception was raised. -/
def rState : RRes → RState
  | .ok st => st
  | .err st _ => st

/-- Whether a reducer run finished without an exception. -/
def rIsOk : RRes → Bool
  | .ok _ => true
  | .err _ _ => false

/-- The all-successes persistence oracle: no save or insert ever fails. -/
def noFail : Nat → Bool := fun _ => false

/-! ### Predicates and measures used by the properties -/

/-- Punch lookup by document name, across all logs. -/
def findPunch (store : RStore) (pn : Nat) : Option BPunch :=
  store.logs.findSome? (fun l => l.punch_table.find? (fun p => p.name = pn))

/-- Names of every punch of every log, in order. -/
def punchNames (logs : List BLog) : List Nat :=
  logs.flatMap (fun l => l.punch_table.map (fun p => p.name))

/-- Store well-formedness guaranteed by the database: document names are
unique, for punch rows and for logs. -/
def WfR (store : RStore) : Prop :=
  (punchNames store.logs).Nodup ∧ (store.logs.map (fun l => l.name)).Nodup

instance (store : RStore) : Decidable (WfR store) := by unfold WfR; infer_instance

/-- Identity key of a checkin: the `(employee, time)` pair. -/
def checkinKey (c : Checkin) : String × String × Nat := (c.employee, c.date, c.tod)

/-- Observable signature of a checkin: its key plus the IN/OUT type. -/
def checkinSig (c : Checkin) : String × String × Nat × String :=
  (c.employee, c.date, c.tod, c.log_type)

/-- Invariant of the store: at most one Checkin Event per `(employee, time)`. -/
def CheckinUnique (store : RStore) : Prop :=
  (store.checkins.map checkinKey).Nodup

instance (store : RStore) : Decidable (CheckinUnique store) := by
  unfold CheckinUnique; infer_instance

/-- Boolean test for a group key the reducer skips: empty device employee
number, no Employee with that `attendance_device_id`, or a non-Active one. -/
def badEmpNoB (employees : List EmployeeRec) (emp_no : String) : Bool :=
  emp_no == "" ||
    (match employees.find? (fun e => e.attendance_device_id = emp_no) with
     | none => true
     | some e => decide (e.status ≠ "Active"))

/-- Number of save attempts among the first `t` that the oracle lets succeed. -/
def succCount (failAt : Nat → Bool) (t : Nat) : Nat :=
  ((List.range t).filter (fun i => !failAt i)).length

/-- Number of save attempts among the first `t` that the oracle fails. -/
def failCount (failAt : Nat → Bool) (t : Nat) : Nat :=
  ((List.range t).filter failAt).length

/-- Number of events the ingest loop does not skip for a missing employee
number or timestamp. -/
def nonSkippedCount (events : List AcsEvent) : Nat :=
  events.countP (fun e => !(e.employeeNoString == "" || e.time == ""))

/-- Splits an event stream into the successive pages the pagination loop
requests (`fuel` bounds the recursion; `devicePages` supplies enough). -/
def pageSplit : Nat → List AcsEvent → List (List AcsEvent)
  | 0, _ => []
  | fuel + 1, l => if l = [] then [] else l.take batch_size :: pageSplit fuel (l.drop batch_size)

/-- The successive non-empty pages served for a device's event stream. -/
def devicePages (dev : Device) : List (List AcsEvent) :=
  pageSplit (dev.events.length + 1) dev.events

/-! ### Concrete artifacts used by witnesses and counterexamples -/

/-- Fresh unsynced `Auto` punch used to build concrete stores. -/
def mkAutoPunch (n t : Nat) : BPunch :=
  { name := n, punch_time := t, punch_type := "Auto", device_id := none,
    synced_to_employee_checkin := false, employee_checkin := none }

/-- Reducer flags with every optional column present. -/
def exFlags : RFlags :=
  { punch_has_employee_checkin := true, checkin_has_biometric_log := true,
    checkin_has_biometric_punch := true, checkin_has_device_id := true }

/-- Ingest flags with every optional column present. -/
def exIFlags : IFlags := { log_has_device_id := true, punch_has_device_id := true }

/-- Active employee mapped to device number 7. -/
def exEmployee : EmployeeRec :=
  { name := "EMP-0001", attendance_device_id := "7", status := "Active" }

/-- Store with a single unsynced punch for an active employee. -/
def c1Store : RStore :=
  { logs := [{ name := 1, employee_no := "7", event_date := "2024-01-02",
               device_id := some "10.0.0.1", punch_table := [mkAutoPunch 10 28800] }],
    checkins := [], employees := [exEmployee] }

/-- Two device events whose timestamps differ only in fractional seconds. -/
def c2Device : Device :=
  { totalMatches := 2,
    events := [{ employeeNoString := "7", time := "2024-01-02T08:00:00.100+08:00" },
               { employeeNoString := "7", time := "2024-01-02T08:00:00.900+08:00" }] }

/-- Device event at minute `i` past 08:00 (two-digit minute). -/
def c4Event (i : Nat) : AcsEvent :=
  { employeeNoString := "7",
    time := "2024-01-02T08:" ++ (if i < 10 then "0" ++ toString i else toString i) ++ ":00" }

/-- Device serving 31 well-formed pairwise-distinct events: one full page of
30 and a final shorter page of 1. -/
def c4Device : Device :=
  { totalMatches := 31, events := (List.range 31).map c4Event }

/-- Store with one group of four unsynced punches
(08:00, 12:00, 13:00, 17:30) for an active employee. -/
def c5Store : RStore :=
  { logs := [{ name := 1, employee_no := "7", event_date := "2024-01-02",
               device_id := some "10.0.0.1",
               punch_table := [mkAutoPunch 10 28800, mkAutoPunch 11 43200,
                               mkAutoPunch 12 46800, mkAutoPunch 13 63000] }],
    checkins := [], employees := [exEmployee] }

/-- Store with one group mixing a midnight punch (00:00:00, whose Python sort
key `punch_time or ""` is the empty string) and a morning punch, for an
active employee. -/
def c5MidStore : RStore :=
  { logs := [{ name := 1, employee_no := "7", event_date := "2024-01-02",
               device_id := some "10.0.0.1",
               punch_table := [mkAutoPunch 10 0, mkAutoPunch 11 28800] }],
    checkins := [], employees := [exEmployee] }

/-- Store whose only unsynced punches belong to an unknown device number and
to an inactive employee. -/
def c7Store : RStore :=
  { logs := [{ name := 1, employee_no := "99", event_date := "2024-01-02",
               device_id := none, punch_table := [mkAutoPunch 10 28800] },
             { name := 2, employee_no := "8", event_date := "2024-01-02",
               device_id := none, punch_table := [mkAutoPunch 20 30000, mkAutoPunch 21 61200] }],
    checkins := [],
    employees := [exEmployee,
                  { name := "EMP-0002", attendance_device_id := "8", status := "Left" }] }

/-- Device for the C9 witness: three well-formed events; the first save
attempt fails, so the first event is persisted nowhere and the third event
(with the same time of day as the first) is not a duplicate. -/
def c9Device : Device :=
  { totalMatches := 3,
    events := [{ employeeNoString := "7", time := "2024-01-02T08:00:00" },
               { employeeNoString := "7", time := "2024-01-02T09:00:00" },
               { employeeNoString := "7", time := "2024-01-02T08:00:00" }] }

/-- Oracle that fails exactly the first persistence attempt. -/
def failFirst : Nat → Bool := fun i => i == 0

/-- Store with two groups for one active employee on consecutive dates. -/
def c10Store : RStore :=
  { logs := [{ name := 1, employee_no := "7", event_date := "2024-01-02",
               device_id := none, punch_table := [mkAutoPunch 10 28800] },
             { name := 2, employee_no := "7", event_date := "2024-01-03",
               device_id := none, punch_table := [mkAutoPunch 20 28800] }],
    checkins := [], employees := [exEmployee] }

/-- Key of a device event after parsing:
`(employee_no, event date, whole-second time of day)`. -/
def evKey (e : AcsEvent) : String × String × Nat :=
  (e.employeeNoString, (parseDeviceTime e.time).getD ("", 0))

/-- Dedup keys of every persisted punch: `(employee_no, event_date,
time-of-day)` triples, one per punch row. -/
def storeKeys (logs : List BLog) : List (String × String × Nat) :=
  logs.flatMap (fun l => l.punch_table.map (fun p => (l.employee_no, l.event_date, p.punch_time)))

/-- The punch named `pn` exists and is marked synced. -/
def syncedTrue (store : RStore) (pn : Nat) : Prop :=
  ∃ p, findPunch store pn = some p ∧ p.synced_to_employee_checkin = true

/-- Correspondence between a punch after a reducer run and the same punch
before it: everything is preserved except that the synced flag may move from
false to true (and the back-link may be filled in). -/
def PunchCorr (q p : BPunch) : Prop :=
  q.name = p.name ∧ q.punch_time = p.punch_time ∧ q.punch_type = p.punch_type ∧
  q.device_id = p.device_id ∧
  (p.synced_to_employee_checkin = true → q.synced_to_employee_checkin = true)

/-- Correspondence between a log after a reducer run and the log before it. -/
def LogCorr (m l : BLog) : Prop :=
  m.name = l.name ∧ m.employee_no = l.employee_no ∧ m.event_date = l.event_date ∧
  m.device_id = l.device_id ∧ List.Forall₂ PunchCorr m.punch_table l.punch_table

/-- How a reducer run may change the store: employees are read-only, logs
evolve punchwise by `LogCorr`, and checkins are only appended. -/
def StoreEvolves (after before : RStore) : Prop :=
  after.employees = before.employees ∧
  List.Forall₂ LogCorr after.logs before.logs ∧
  ∃ new, after.checkins = before.checkins ++ new

/-- Lift of `PunchCorr` to the optional results of `findPunch`. -/
def OptCorr : Option BPunch → Option BPunch → Prop
  | some q, some p => PunchCorr q p
  | none, none => True
  | _, _ => False

/-- A punch-field update that may only set the synced flag and the
back-link, as the reducer's `set_value` calls do. -/
def MarkLike (f : BPunch → BPunch) : Prop :=
  ∀ p, (f p).name = p.name ∧ (f p).punch_time = p.punch_time ∧
    (f p).punch_type = p.punch_type ∧ (f p).device_id = p.device_id ∧
    (f p).synced_to_employee_checkin = true

/-! ### Helper lemmas and claim theorems -/

theorem calculate_eq_durationSpec :
    ∀ ps : List Nat, (∀ t ∈ ps, t % 60 = 0) →
      calculate_total_minutes ps = durationSpecMinutes ps
  | [], _ => rfl
  | [_], _ => rfl
  | a :: b :: rest, h => by
    have ha : a % 60 = 0 := h a (by simp)
    have hb : b % 60 = 0 := h b (by simp)
    have ih := calculate_eq_durationSpec rest (fun t ht => h t (by simp [ht]))
    show ((b / 60 : Nat) : Int) - ((a / 60 : Nat) : Int) + calculate_total_minutes rest =
      ((b : Int) - (a : Int)) / 60 + durationSpecMinutes rest
    rw [ih]
    congr 1
    obtain ⟨a2, rfl⟩ := Nat.dvd_of_mod_eq_zero ha
    obtain ⟨b2, rfl⟩ := Nat.dvd_of_mod_eq_zero hb
    rw [Nat.mul_div_cancel_left a2 (by norm_num), Nat.mul_div_cancel_left b2 (by norm_num)]
    push_cast
    rw [show ((60 : Int) * b2 - 60 * a2) = 60 * ((b2 : Int) - a2) by ring]
    rw [Int.mul_ediv_cancel_left _ (by norm_num)]

/-- C3: for every device whose initial probe reports `totalMatches` greater
than 1500, `_sync_for_single_device` raises at once: the result is the error
`tooManyRecords` and its store is exactly the input store with zero
counters, so no punch or log was written and no page was processed. -/
theorem C3_volume_ceiling (label ip : String) (flags : IFlags) (failAt : Nat → Bool)
    (dev : Device) (nextId : Nat) (logs : List BLog)
    (h : dev.totalMatches > 1500) :
    syncForSingleDevice label ip flags failAt dev nextId logs =
      IRes.err { logs := logs, count := 0, skipped := 0, tick := 0, nextId := nextId }
        (IErr.tooManyRecords label dev.totalMatches) := by
  unfold syncForSingleDevice
  have h0 : dev.totalMatches ≠ 0 := by omega
  simp [h0, h]

/-- C3 witness: a device reporting 1501 matches fails fast with nothing
written. -/
theorem C3_volume_ceiling_witness :
    (1501 : Nat) > 1500 ∧
    syncForSingleDevice "Main Device" "10.0.0.1" exIFlags noFail ⟨1501, []⟩ 7 [] =
      IRes.err { logs := [], count := 0, skipped := 0, tick := 0, nextId := 7 }
        (IErr.tooManyRecords "Main Device" 1501) :=
  ⟨by decide,
   C3_volume_ceiling "Main Device" "10.0.0.1" exIFlags noFail ⟨1501, []⟩ 7 [] (by decide)⟩

/-- C8: for a report row whose punch times are whole minutes, an even punch
count yields the sum over consecutive pairs of the pair differences in
minutes, formatted HH:MM, and an odd punch count yields the sentinel
"Check".  (For times with a seconds component the informal phrase
"difference in minutes" does not denote an integer, so the claim is read on
whole-minute times, where it is exact.) -/
theorem C8_report_duration (ps : List Nat) (hwhole : ∀ t ∈ ps, t % 60 = 0) :
    rowTotalDuration ps =
      if ps.length % 2 = 1 then "Check"
      else format_minutes_to_hhmm (durationSpecMinutes ps) := by
  unfold rowTotalDuration
  rcases Nat.mod_two_eq_zero_or_one ps.length with h | h
  · simp [h, calculate_eq_durationSpec ps hwhole]
  · simp [h]

/-- C8 witness: punches at 09:00 and 17:00 give "08:00"; three punches give
"Check". -/
theorem C8_report_duration_witness :
    (∀ t ∈ [32400, 61200], t % 60 = 0) ∧
    rowTotalDuration [32400, 61200] = "08:00" ∧
    rowTotalDuration [32400, 61200, 63000] = "Check" := by
  refine ⟨by decide, ?_, ?_⟩
  · rw [C8_report_duration [32400, 61200] (by decide)]
    rfl
  · rw [C8_report_duration [32400, 61200, 63000] (by decide)]
    rfl

/-- C1 counterexample: from a store with one unsynced punch for an active
employee, the first reducer run reports `created = 1`; the completed first
run marks that punch synced, so the second run selects nothing and reports
`already_synced = 0`, not the first run's `created`. -/
theorem C1_counterexample :
    (rState (sync_punches_to_employee_checkin exFlags noFail c1Store)).created = 1 ∧
    (rState (sync_punches_to_employee_checkin exFlags noFail
      (rState (sync_punches_to_employee_checkin exFlags noFail c1Store)).store)).created = 0 ∧
    (rState (sync_punches_to_employee_checkin exFlags noFail
        (rState (sync_punches_to_employee_checkin exFlags noFail c1Store)).store)).already_synced ≠
      (rState (sync_punches_to_employee_checkin exFlags noFail c1Store)).created :=
  ⟨rfl, rfl, by decide⟩

set_option maxRecDepth 40000 in
/-- C2 counterexample: two device events for the same employee and date whose
timestamps differ only in fractional seconds are not both kept: the ingest
stores one punch and counts the second event as a skipped duplicate, because
`event_timestamp[:19]` drops everything below whole seconds before the dedup
key is computed. -/
theorem C2_counterexample :
    iIsOk (syncForSingleDevice "Main Device" "10.0.0.1" exIFlags noFail c2Device 0 []) = true ∧
    (iState (syncForSingleDevice "Main Device" "10.0.0.1" exIFlags noFail c2Device 0 [])).count = 1 ∧
    (iState (syncForSingleDevice "Main Device" "10.0.0.1" exIFlags noFail c2Device 0 [])).skipped = 1 ∧
    punchCount (iState (syncForSingleDevice "Main Device" "10.0.0.1" exIFlags noFail
      c2Device 0 [])).logs = 1 := by
  refine ⟨?_, ?_, ?_, ?_⟩ <;> rfl

theorem parseDeviceTime_empty : parseDeviceTime "" = none := rfl

/-- C2 amended: during device ingest, two events with the same employee whose
timestamps parse (after the `[:19]` truncation) to the same date collapse to
one stored punch when their whole-second times of day coincide — which
includes timestamps differing only in fractional seconds — with the second
event counted in `skippedDuplicates`; only events whose times of day differ
at whole-second precision or above are kept as two distinct punches. -/
theorem C2_amended_dedup (label ip : String) (flags : IFlags)
    (e1 e2 : AcsEvent) (d : String) (t1 t2 : Nat)
    (hemp1 : e1.employeeNoString ≠ "")
    (hemp : e2.employeeNoString = e1.employeeNoString)
    (hp1 : parseDeviceTime e1.time = some (d, t1))
    (hp2 : parseDeviceTime e2.time = some (d, t2)) :
    iIsOk (syncForSingleDevice label ip flags noFail ⟨2, [e1, e2]⟩ 0 []) = true ∧
    (iState (syncForSingleDevice label ip flags noFail ⟨2, [e1, e2]⟩ 0 [])).count =
      (if t2 = t1 then 1 else 2) ∧
    (iState (syncForSingleDevice label ip flags noFail ⟨2, [e1, e2]⟩ 0 [])).skipped =
      (if t2 = t1 then 1 else 0) ∧
    punchCount (iState (syncForSingleDevice label ip flags noFail ⟨2, [e1, e2]⟩ 0 [])).logs =
      (if t2 = t1 then 1 else 2) := by
  have ht1 : e1.time ≠ "" := by
    intro he; rw [he, parseDeviceTime_empty] at hp1; cases hp1
  have ht2 : e2.time ≠ "" := by
    intro he; rw [he, parseDeviceTime_empty] at hp2; cases hp2
  have run : syncForSingleDevice label ip flags noFail ⟨2, [e1, e2]⟩ 0 [] =
      processEvents ip flags noFail
        { logs := [], count := 0, skipped := 0, tick := 0, nextId := 0 } [e1, e2] := by
    unfold syncForSingleDevice syncLoop fetchPage batch_size
    simp only [List.drop_nil, List.take_nil]
    norm_num
    cases processEvents ip flags noFail
        { logs := [], count := 0, skipped := 0, tick := 0, nextId := 0 } [e1, e2] <;> simp
  rw [run]
  simp only [processEvents, processEvent, hemp, hemp1, ht1, ht2, hp1, hp2, noFail,
    false_or, or_self, if_false, List.find?_nil, List.any_nil, Bool.false_eq_true,
    ite_false, List.nil_append]
  by_cases h : t2 = t1
  · simp [h, iIsOk, iState, punchCount, replaceLog]
  · simp [h, Ne.symm h, iIsOk, iState, punchCount, replaceLog]

set_option maxRecDepth 40000 in
/-- C2 amended witness: the two fractional-second events of `c2Device`
satisfy the hypotheses with equal whole-second times of day, so exactly one
punch is kept and one duplicate is counted. -/
theorem C2_amended_dedup_witness :
    parseDeviceTime "2024-01-02T08:00:00.100+08:00" = some ("2024-01-02", 28800) ∧
    parseDeviceTime "2024-01-02T08:00:00.900+08:00" = some ("2024-01-02", 28800) ∧
    iIsOk (syncForSingleDevice "Main Device" "10.0.0.1" exIFlags noFail c2Device 0 []) = true ∧
    (iState (syncForSingleDevice "Main Device" "10.0.0.1" exIFlags noFail c2Device 0 [])).count =
      (if 28800 = 28800 then 1 else 2) ∧
    (iState (syncForSingleDevice "Main Device" "10.0.0.1" exIFlags noFail c2Device 0 [])).skipped =
      (if 28800 = 28800 then 1 else 0) := by
  have h := C2_amended_dedup "Main Device" "10.0.0.1" exIFlags
    { employeeNoString := "7", time := "2024-01-02T08:00:00.100+08:00" }
    { employeeNoString := "7", time := "2024-01-02T08:00:00.900+08:00" }
    "2024-01-02" 28800 28800 (by decide) rfl (by decide) (by decide)
  exact ⟨by decide, by decide, h.1, h.2.1, h.2.2.1⟩

theorem markLike_setSynced : MarkLike setSynced := by
  intro p; simp [setSynced]

theorem markLike_setSyncedLink (b : Bool) (c : Nat) : MarkLike (setSyncedLink b c) := by
  intro p; simp [setSyncedLink]

theorem find?_update_punches (pt : List BPunch) (pn q : Nat) (f : BPunch → BPunch)
    (hf : MarkLike f) :
    (pt.map (fun p => if p.name = pn then f p else p)).find? (fun p => p.name = q) =
      if q = pn then (pt.find? (fun p => p.name = q)).map f
      else pt.find? (fun p => p.name = q) := by
  induction pt with
  | nil => simp
  | cons p pt ih =>
    simp only [List.map_cons]
    have hname : (if p.name = pn then f p else p).name = p.name := by
      split
      · exact (hf p).1
      · rfl
    by_cases hp : p.name = q
    · rw [List.find?_cons_of_pos _ (by simp only [hname]; exact decide_eq_true hp),
          List.find?_cons_of_pos _ (by simp [hp])]
      by_cases hq : q = pn
      · have hppn : p.name = pn := hq ▸ hp
        simp [hppn, hq]
      · have hppn : ¬p.name = pn := fun h => hq (hp ▸ h)
        simp [hppn, hq]
    · rw [List.find?_cons_of_neg _ (by simp only [hname]; simp [hp]),
          List.find?_cons_of_neg _ (by simp [hp])]
      exact ih

theorem findPunch_updatePunch (store : RStore) (pn q : Nat) (f : BPunch → BPunch)
    (hf : MarkLike f) :
    findPunch (updatePunch store pn f) q =
      if q = pn then (findPunch store pn).map f else findPunch store q := by
  obtain ⟨ls, cs, es⟩ := store
  show (ls.map _).findSome? _ = _
  induction ls with
  | nil => simp [findPunch]
  | cons l ls ih =>
    simp only [List.map_cons, List.findSome?_cons]
    rw [find?_update_punches l.punch_table pn q f hf]
    by_cases hq : q = pn
    · subst hq
      rw [if_pos rfl, if_pos rfl]
      cases hfind : l.punch_table.find? (fun p => p.name = q) with
      | some p => simp [findPunch, List.findSome?_cons, hfind]
      | none =>
        simp only [Option.map_none']
        rw [ih, if_pos rfl]
        simp [findPunch, List.findSome?_cons, hfind]
    · rw [if_neg hq, if_neg hq]
      cases hfind : l.punch_table.find? (fun p => p.name = q) with
      | some p => simp [findPunch, List.findSome?_cons, hfind]
      | none =>
        rw [ih, if_neg hq]
        simp [findPunch, List.findSome?_cons, hfind]

theorem syncedTrue_updatePunch_self (store : RStore) (pn : Nat) (f : BPunch → BPunch)
    (hf : MarkLike f) (p : BPunch) (h : findPunch store pn = some p) :
    syncedTrue (updatePunch store pn f) pn := by
  refine ⟨f p, ?_, ((hf p).2.2.2.2)⟩
  rw [findPunch_updatePunch store pn pn f hf, if_pos rfl, h]
  rfl

theorem syncedTrue_mono_updatePunch (store : RStore) (pn q : Nat) (f : BPunch → BPunch)
    (hf : MarkLike f) (h : syncedTrue store q) :
    syncedTrue (updatePunch store pn f) q := by
  obtain ⟨p, hfind, hs⟩ := h
  by_cases hq : q = pn
  · subst hq
    exact syncedTrue_updatePunch_self store q f hf p hfind
  · exact ⟨p, by rw [findPunch_updatePunch store pn q f hf, if_neg hq]; exact hfind, hs⟩

theorem findPunch_setCheckins (store : RStore) (cs : List Checkin) (q : Nat) :
    findPunch { store with checkins := cs } q = findPunch store q := rfl

theorem syncedTrue_setCheckins (store : RStore) (cs : List Checkin) (q : Nat)
    (h : syncedTrue store q) : syncedTrue { store with checkins := cs } q := h

theorem punchCorr_refl (p : BPunch) : PunchCorr p p :=
  ⟨rfl, rfl, rfl, rfl, fun h => h⟩

theorem punchCorr_trans {r q p : BPunch} (h1 : PunchCorr r q) (h2 : PunchCorr q p) :
    PunchCorr r p :=
  ⟨h1.1.trans h2.1, h1.2.1.trans h2.2.1, h1.2.2.1.trans h2.2.2.1,
   h1.2.2.2.1.trans h2.2.2.2.1, fun h => h1.2.2.2.2 (h2.2.2.2.2 h)⟩

theorem logCorr_refl (l : BLog) : LogCorr l l :=
  ⟨rfl, rfl, rfl, rfl, List.forall₂_same.2 (fun p _ => punchCorr_refl p)⟩

theorem forall₂_punchCorr_trans {a b c : List BPunch}
    (h1 : List.Forall₂ PunchCorr a b) (h2 : List.Forall₂ PunchCorr b c) :
    List.Forall₂ PunchCorr a c := by
  induction h1 generalizing c with
  | nil => cases h2; exact List.Forall₂.nil
  | cons hab h1tl ih =>
    cases h2 with
    | cons hbc h2tl => exact List.Forall₂.cons (punchCorr_trans hab hbc) (ih h2tl)

theorem logCorr_trans {m k l : BLog} (h1 : LogCorr m k) (h2 : LogCorr k l) : LogCorr m l :=
  ⟨h1.1.trans h2.1, h1.2.1.trans h2.2.1, h1.2.2.1.trans h2.2.2.1,
   h1.2.2.2.1.trans h2.2.2.2.1, forall₂_punchCorr_trans h1.2.2.2.2 h2.2.2.2.2⟩

theorem forall₂_logCorr_trans {a b c : List BLog}
    (h1 : List.Forall₂ LogCorr a b) (h2 : List.Forall₂ LogCorr b c) :
    List.Forall₂ LogCorr a c := by
  induction h1 generalizing c with
  | nil => cases h2; exact List.Forall₂.nil
  | cons hab h1tl ih =>
    cases h2 with
    | cons hbc h2tl => exact List.Forall₂.cons (logCorr_trans hab hbc) (ih h2tl)

theorem storeEvolves_refl (store : RStore) : StoreEvolves store store :=
  ⟨rfl, List.forall₂_same.2 (fun l _ => logCorr_refl l), [], by simp⟩

theorem storeEvolves_trans {c b a : RStore} (h1 : StoreEvolves c b) (h2 : StoreEvolves b a) :
    StoreEvolves c a := by
  obtain ⟨he1, hl1, n1, hc1⟩ := h1
  obtain ⟨he2, hl2, n2, hc2⟩ := h2
  exact ⟨he1.trans he2, forall₂_logCorr_trans hl1 hl2, n2 ++ n1,
    by rw [hc1, hc2, List.append_assoc]⟩

theorem storeEvolves_updatePunch (store : RStore) (pn : Nat) (f : BPunch → BPunch)
    (hf : MarkLike f) : StoreEvolves (updatePunch store pn f) store := by
  refine ⟨rfl, ?_, [], by simp [updatePunch]⟩
  show List.Forall₂ LogCorr (store.logs.map _) store.logs
  rw [List.forall₂_map_left_iff]
  refine List.forall₂_same.2 (fun l _ => ?_)
  refine ⟨rfl, rfl, rfl, rfl, ?_⟩
  show List.Forall₂ PunchCorr (l.punch_table.map _) l.punch_table
  rw [List.forall₂_map_left_iff]
  refine List.forall₂_same.2 (fun p _ => ?_)
  by_cases hp : p.name = pn
  · simp only [hp, if_pos]
    have := hf p
    exact ⟨this.1, this.2.1, this.2.2.1, this.2.2.2.1, fun _ => this.2.2.2.2⟩
  · simp only [hp, if_neg, ite_false]
    exact punchCorr_refl p

theorem storeEvolves_appendCheckins (store : RStore) (cs : List Checkin) :
    StoreEvolves { store with checkins := store.checkins ++ cs } store :=
  ⟨rfl, List.forall₂_same.2 (fun l _ => logCorr_refl l), cs, rfl⟩

theorem find?_name_corr {l1 l : List BPunch} (h : List.Forall₂ PunchCorr l1 l) (pn : Nat) :
    OptCorr (l1.find? (fun p => p.name = pn)) (l.find? (fun p => p.name = pn)) := by
  induction h with
  | nil => trivial
  | cons hpq htl ih =>
    rename_i q p l1tl ltl
    by_cases hname : p.name = pn
    · have hq : q.name = pn := hpq.1.trans hname
      have e1 : (q :: l1tl).find? (fun x => x.name = pn) = some q := by simp [hq]
      have e2 : (p :: ltl).find? (fun x => x.name = pn) = some p := by simp [hname]
      rw [e1, e2]
      exact hpq
    · have hq : ¬q.name = pn := fun hh => hname (hpq.1.symm.trans hh)
      have e1 : (q :: l1tl).find? (fun x => x.name = pn) =
        l1tl.find? (fun x => x.name = pn) := by simp [hq]
      have e2 : (p :: ltl).find? (fun x => x.name = pn) =
        ltl.find? (fun x => x.name = pn) := by simp [hname]
      rw [e1, e2]
      exact ih

theorem findPunch_corr {after before : RStore} (h : StoreEvolves after before) (pn : Nat) :
    OptCorr (findPunch after pn) (findPunch before pn) := by
  obtain ⟨-, hlogs, -⟩ := h
  show OptCorr (after.logs.findSome? _) (before.logs.findSome? _)
  revert hlogs
  generalize after.logs = ms
  generalize before.logs = ls
  intro hlogs
  induction hlogs with
  | nil => trivial
  | cons hlog htl ih =>
    rename_i m l ms ls
    simp only [List.findSome?_cons]
    have hfind := find?_name_corr hlog.2.2.2.2 pn
    cases h1 : m.punch_table.find? (fun p => p.name = pn) with
    | some q =>
      cases h2 : l.punch_table.find? (fun p => p.name = pn) with
      | some p => rw [h1, h2] at hfind; exact hfind
      | none => rw [h1, h2] at hfind; cases hfind
    | none =>
      cases h2 : l.punch_table.find? (fun p => p.name = pn) with
      | some p => rw [h1, h2] at hfind; cases hfind
      | none => exact ih

theorem syncedTrue_evolves {after before : RStore} (h : StoreEvolves after before)
    (pn : Nat) (hs : syncedTrue before pn) : syncedTrue after pn := by
  obtain ⟨p, hfind, hsync⟩ := hs
  have := findPunch_corr h pn
  rw [hfind] at this
  cases h1 : findPunch after pn with
  | some q => rw [h1] at this; exact ⟨q, h1, this.2.2.2.2 hsync⟩
  | none => rw [h1] at this; cases this

theorem findPunch_exists_evolves {after before : RStore} (h : StoreEvolves after before)
    (pn : Nat) (hs : ∃ p, findPunch before pn = some p) :
    ∃ q, findPunch after pn = some q := by
  obtain ⟨p, hfind⟩ := hs
  have := findPunch_corr h pn
  rw [hfind] at this
  cases h1 : findPunch after pn with
  | some q => exact ⟨q, rfl⟩
  | none => rw [h1] at this; cases this

theorem create_evolves (flags : RFlags) (insFail : Nat → Bool) (employee : String)
    (st : RState) (punch : Row) (lt : String) :
    StoreEvolves (rState (create_checkin_for_punch flags insFail employee st punch lt)).store
      st.store := by
  unfold create_checkin_for_punch
  by_cases hex : checkinExists st.store employee punch.event_date punch.punch_time
  · simp only [hex, if_pos, if_true, rState]
    exact storeEvolves_updatePunch _ _ _ markLike_setSynced
  · by_cases hfail : insFail st.insTick
    · simp only [hex, hfail, if_false, if_true, Bool.false_eq_true, ite_false, ite_true, rState]
      exact storeEvolves_refl _
    · simp only [hex, hfail, Bool.false_eq_true, ite_false, rState]
      exact storeEvolves_trans
        (storeEvolves_updatePunch _ _ _ (markLike_setSyncedLink _ _))
        (storeEvolves_appendCheckins _ _)

theorem create_ok_marks (flags : RFlags) (insFail : Nat → Bool) (employee : String)
    (st : RState) (punch : Row) (lt : String) (st1 : RState)
    (hok : create_checkin_for_punch flags insFail employee st punch lt = .ok st1)
    (hex : ∃ p, findPunch st.store punch.punch_name = some p) :
    syncedTrue st1.store punch.punch_name := by
  obtain ⟨p, hp⟩ := hex
  unfold create_checkin_for_punch at hok
  by_cases hexists : checkinExists st.store employee punch.event_date punch.punch_time
  · simp only [hexists, if_pos, if_true] at hok
    cases hok
    exact syncedTrue_updatePunch_self _ _ _ markLike_setSynced p hp
  · by_cases hfail : insFail st.insTick
    · simp only [hexists, hfail, Bool.false_eq_true, ite_false, ite_true] at hok
      cases hok
    · simp only [hexists, hfail, Bool.false_eq_true, ite_false] at hok
      cases hok
      exact syncedTrue_updatePunch_self _ _ _ (markLike_setSyncedLink _ _) p hp

theorem create_frame (flags : RFlags) (insFail : Nat → Bool) (employee : String)
    (st : RState) (punch : Row) (lt : String) (q : Nat) (hq : q ≠ punch.punch_name) :
    findPunch (rState (create_checkin_for_punch flags insFail employee st punch lt)).store q =
      findPunch st.store q := by
  unfold create_checkin_for_punch
  by_cases hex : checkinExists st.store employee punch.event_date punch.punch_time
  · simp only [hex, if_pos, if_true, rState]
    rw [findPunch_updatePunch _ _ _ _ markLike_setSynced, if_neg hq]
  · by_cases hfail : insFail st.insTick
    · simp only [hex, hfail, Bool.false_eq_true, ite_false, ite_true, rState]
    · simp only [hex, hfail, Bool.false_eq_true, ite_false, rState]
      rw [findPunch_updatePunch _ _ _ _ (markLike_setSyncedLink _ _), if_neg hq]
      rfl

theorem create_checkins_spec (flags : RFlags) (insFail : Nat → Bool) (employee : String)
    (st : RState) (punch : Row) (lt : String) :
    (rState (create_checkin_for_punch flags insFail employee st punch lt)).store.checkins =
        st.store.checkins ∨
      (∃ c : Checkin,
        (rState (create_checkin_for_punch flags insFail employee st punch lt)).store.checkins =
          st.store.checkins ++ [c] ∧
        checkinSig c = (employee, punch.event_date, punch.punch_time, lt) ∧
        c.biometric_log =
          (if flags.checkin_has_biometric_log then some punch.log_name else none) ∧
        checkinExists st.store employee punch.event_date punch.punch_time = false) := by
  unfold create_checkin_for_punch
  by_cases hex : checkinExists st.store employee punch.event_date punch.punch_time
  · left
    simp only [hex, if_pos, if_true, rState, updatePunch]
  · by_cases hfail : insFail st.insTick
    · left
      simp only [hex, hfail, Bool.false_eq_true, ite_false, ite_true, rState]
    · right
      refine
        ⟨{ name := st.store.checkins.length, employee := employee,
           date := punch.event_date, tod := punch.punch_time, log_type := lt,
           device_id := if flags.checkin_has_device_id ∧
               truthy (orFalsy punch.punch_device_id punch.log_device_id) then
             orFalsy punch.punch_device_id punch.log_device_id else none,
           biometric_log :=
             if flags.checkin_has_biometric_log then some punch.log_name else none,
           biometric_punch :=
             if flags.checkin_has_biometric_punch then some punch.punch_name else none },
         ?_, rfl, rfl, by simp [hex]⟩
      simp only [hex, hfail, Bool.false_eq_true, ite_false, rState, updatePunch]

theorem foldMark_evolves :
    ∀ (ms : List Row) (st : RState),
      StoreEvolves
        ((ms.foldl (fun s p =>
          { s with store := updatePunch s.store p.punch_name setSynced }) st).store)
        st.store
  | [], st => storeEvolves_refl _
  | m :: ms, st => by
    simp only [List.foldl_cons]
    exact storeEvolves_trans (foldMark_evolves ms _)
      (storeEvolves_updatePunch _ _ _ markLike_setSynced)

theorem foldMark_marks :
    ∀ (ms : List Row) (st : RState) (r : Row), r ∈ ms →
      (∃ p, findPunch st.store r.punch_name = some p) →
      syncedTrue
        ((ms.foldl (fun s p =>
          { s with store := updatePunch s.store p.punch_name setSynced }) st).store)
        r.punch_name
  | m :: ms, st, r, hr, hex => by
    simp only [List.foldl_cons]
    rcases List.mem_cons.1 hr with rfl | hr
    · obtain ⟨p, hp⟩ := hex
      exact syncedTrue_evolves (foldMark_evolves ms _) _
        (syncedTrue_updatePunch_self _ _ _ markLike_setSynced p hp)
    · exact foldMark_marks ms _ r hr
        (findPunch_exists_evolves
          (storeEvolves_updatePunch _ _ _ markLike_setSynced) _ hex)

theorem foldMark_frame :
    ∀ (ms : List Row) (st : RState) (q : Nat), (∀ r ∈ ms, q ≠ r.punch_name) →
      findPunch
        ((ms.foldl (fun s p =>
          { s with store := updatePunch s.store p.punch_name setSynced }) st).store) q =
      findPunch st.store q
  | [], _, _, _ => rfl
  | m :: ms, st, q, h => by
    simp only [List.foldl_cons]
    rw [foldMark_frame ms _ q (fun r hr => h r (List.mem_cons_of_mem m hr)),
        findPunch_updatePunch _ _ _ _ markLike_setSynced,
        if_neg (h m (List.mem_cons_self m ms))]

theorem foldMark_checkins :
    ∀ (ms : List Row) (st : RState),
      ((ms.foldl (fun s p =>
        { s with store := updatePunch s.store p.punch_name setSynced }) st).store).checkins =
      st.store.checkins
  | [], _ => rfl
  | m :: ms, st => by
    simp only [List.foldl_cons]
    rw [foldMark_checkins ms _]
    rfl

theorem foldMark_counters :
    ∀ (ms : List Row) (st : RState),
      ((ms.foldl (fun s p =>
        { s with store := updatePunch s.store p.punch_name setSynced }) st)).created =
          st.created ∧
      ((ms.foldl (fun s p =>
        { s with store := updatePunch s.store p.punch_name setSynced }) st)).already_synced =
          st.already_synced
  | [], _ => ⟨rfl, rfl⟩
  | m :: ms, st => by
    simp only [List.foldl_cons]
    exact foldMark_counters ms _

theorem pySortRows_perm (rows sorted : List Row) (h : pySortRows rows = some sorted) :
    sorted.Perm rows := by
  unfold pySortRows at h
  split at h
  · cases h; exact List.Perm.refl _
  · split at h
    · cases h; exact List.perm_insertionSort _ _
    · split at h
      · cases h; exact List.Perm.refl _
      · cases h

theorem processGroup_bad (flags : RFlags) (insFail : Nat → Bool) (st : RState)
    (g : (String × String) × List Row)
    (hbad : badEmpNoB st.store.employees g.1.1 = true) :
    processGroup flags insFail st g = .ok st := by
  unfold processGroup
  unfold badEmpNoB at hbad
  by_cases h1 : g.1.1 = ""
  · simp [h1]
  · rw [if_neg h1]
    cases hf : st.store.employees.find? (fun e => e.attendance_device_id = g.1.1) with
    | none => simp [hf]
    | some emp_row =>
      rw [hf] at hbad
      have h2 : emp_row.status ≠ "Active" := by
        simp only [beq_iff_eq, h1, Bool.false_or, decide_eq_true_eq] at hbad
        simp only [Bool.or_eq_true, beq_iff_eq, decide_eq_true_eq] at hbad
        tauto
      simp [hf, h2]

theorem checkinExists_false_notin (store : RStore) (emp d : String) (t : Nat)
    (h : checkinExists store emp d t = false) :
    (emp, d, t) ∉ store.checkins.map checkinKey := by
  intro hmem
  obtain ⟨c, hc, hkey⟩ := List.mem_map.1 hmem
  unfold checkinKey at hkey
  have h1 : c.employee = emp := congrArg Prod.fst hkey
  have h2 : c.date = d := congrArg Prod.fst (congrArg Prod.snd hkey)
  have h3 : c.tod = t := congrArg Prod.snd (congrArg Prod.snd hkey)
  have : checkinExists store emp d t = true := by
    unfold checkinExists
    rw [List.any_eq_true]
    exact ⟨c, hc, by simp [h1, h2, h3]⟩
  rw [h] at this
  cases this

theorem nodup_keys_append (cs : List Checkin) (c : Checkin)
    (h : (cs.map checkinKey).Nodup) (hc : checkinKey c ∉ cs.map checkinKey) :
    ((cs ++ [c]).map checkinKey).Nodup := by
  rw [List.map_append, List.map_singleton]
  rw [List.nodup_append]
  exact ⟨h, List.nodup_singleton _, by
    intro k hk hk1
    rw [List.mem_singleton] at hk1
    exact hc (hk1 ▸ hk)⟩

theorem create_checkinUnique (flags : RFlags) (insFail : Nat → Bool) (employee : String)
    (st : RState) (punch : Row) (lt : String) (h : CheckinUnique st.store) :
    CheckinUnique (rState (create_checkin_for_punch flags insFail employee st punch lt)).store := by
  rcases create_checkins_spec flags insFail employee st punch lt with heq | ⟨c, heq, hsig, -, hex⟩
  · unfold CheckinUnique
    rw [heq]
    exact h
  · unfold CheckinUnique
    rw [heq]
    have hkey : checkinKey c = (employee, punch.event_date, punch.punch_time) := by
      unfold checkinSig at hsig
      unfold checkinKey
      have h1 : c.employee = employee := congrArg Prod.fst hsig
      have h2 : c.date = punch.event_date := congrArg Prod.fst (congrArg Prod.snd hsig)
      have h3 : c.tod = punch.punch_time :=
        congrArg Prod.fst (congrArg Prod.snd (congrArg Prod.snd hsig))
      rw [h1, h2, h3]
    exact nodup_keys_append _ _ h
      (hkey ▸ checkinExists_false_notin st.store employee punch.event_date punch.punch_time hex)

theorem processGroup_master (flags : RFlags) (insFail : Nat → Bool) (st : RState)
    (g : (String × String) × List Row) :
    StoreEvolves (rState (processGroup flags insFail st g)).store st.store ∧
    (∃ new, (rState (processGroup flags insFail st g)).store.checkins =
        st.store.checkins ++ new ∧
      ∀ c ∈ new, badEmpNoB st.store.employees g.1.1 = false ∧ ∃ r ∈ g.2,
        c.biometric_log = (if flags.checkin_has_biometric_log then some r.log_name else none)) ∧
    (∀ q, (∀ r ∈ g.2, q ≠ r.punch_name) →
      findPunch (rState (processGroup flags insFail st g)).store q = findPunch st.store q) ∧
    (CheckinUnique st.store → CheckinUnique (rState (processGroup flags insFail st g)).store) := by
  by_cases h1 : g.1.1 = ""
  · have hrun : processGroup flags insFail st g = RRes.ok st := by
      simp [processGroup, h1]
    rw [hrun]
    exact ⟨storeEvolves_refl _, ⟨[], by simp [rState], by simp⟩, fun q _ => rfl, fun h => h⟩
  cases hf : st.store.employees.find? (fun e => e.attendance_device_id = g.1.1) with
  | none =>
    have hrun : processGroup flags insFail st g = RRes.ok st := by
      simp [processGroup, h1, hf]
    rw [hrun]
    exact ⟨storeEvolves_refl _, ⟨[], by simp [rState], by simp⟩, fun q _ => rfl, fun h => h⟩
  | some emp_row =>
  by_cases hst : emp_row.status = "Active"
  case neg =>
    have hrun : processGroup flags insFail st g = RRes.ok st := by
      simp [processGroup, h1, hf, hst]
    rw [hrun]
    exact ⟨storeEvolves_refl _, ⟨[], by simp [rState], by simp⟩, fun q _ => rfl, fun h => h⟩
  case pos =>
  cases hsort : pySortRows g.2 with
  | none =>
    have hrun : processGroup flags insFail st g = RRes.err st RErr.sortTypeError := by
      simp [processGroup, h1, hf, hst, hsort]
    rw [hrun]
    exact ⟨storeEvolves_refl _, ⟨[], by simp [rState], by simp⟩, fun q _ => rfl, fun h => h⟩
  | some sorted =>
  have hmemg : ∀ r ∈ sorted, r ∈ g.2 :=
    fun r hr => (pySortRows_perm g.2 sorted hsort).mem_iff.1 hr
  cases sorted with
  | nil =>
    have hrun : processGroup flags insFail st g = RRes.ok st := by
      simp [processGroup, h1, hf, hst, hsort]
    rw [hrun]
    exact ⟨storeEvolves_refl _, ⟨[], by simp [rState], by simp⟩, fun q _ => rfl, fun h => h⟩
  | cons first tail =>
  have hfirstg : first ∈ g.2 := hmemg first (List.mem_cons_self _ _)
  have hlastg : (first :: tail).getLastD first ∈ g.2 := by
    apply hmemg
    rw [List.getLastD_eq_getLast?]
    cases hli : (first :: tail).getLast? with
    | none => simp at hli
    | some x =>
      simp only [Option.getD_some]
      exact List.mem_of_getLast?_eq_some hli
  have hbadf : badEmpNoB st.store.employees g.1.1 = false := by
    simp [badEmpNoB, h1, hf, hst]
  cases hres1 : create_checkin_for_punch flags insFail emp_row.name st first "IN" with
  | err st1 e =>
    have hrun : processGroup flags insFail st g = RRes.err st1 e := by
      simp [processGroup, h1, hf, hst, hsort, hres1]
    rw [hrun]
    have e1 : StoreEvolves st1.store st.store := by
      have := create_evolves flags insFail emp_row.name st first "IN"
      rwa [hres1] at this
    have c1 := create_checkins_spec flags insFail emp_row.name st first "IN"
    rw [hres1] at c1
    have u1 : CheckinUnique st.store → CheckinUnique st1.store := by
      intro h
      have := create_checkinUnique flags insFail emp_row.name st first "IN" h
      rwa [hres1] at this
    refine ⟨e1, ?_, ?_, u1⟩
    · rcases c1 with heq | ⟨c, heq, -, hlog, -⟩
      · exact ⟨[], by simpa [rState] using heq, by simp⟩
      · refine ⟨[c], by simpa [rState] using heq, ?_⟩
        intro x hx
        rw [List.mem_singleton] at hx
        exact ⟨hbadf, first, hfirstg, hx ▸ hlog⟩
    · intro q hq
      have := create_frame flags insFail emp_row.name st first "IN" q (hq first hfirstg)
      rwa [hres1] at this
  | ok st1 =>
  have e1 : StoreEvolves st1.store st.store := by
    have := create_evolves flags insFail emp_row.name st first "IN"
    rwa [hres1] at this
  have c1 := create_checkins_spec flags insFail emp_row.name st first "IN"
  rw [hres1] at c1
  have u1 : CheckinUnique st.store → CheckinUnique st1.store := by
    intro h
    have := create_checkinUnique flags insFail emp_row.name st first "IN" h
    rwa [hres1] at this
  have f1 : ∀ q, (∀ r ∈ g.2, q ≠ r.punch_name) →
      findPunch st1.store q = findPunch st.store q := by
    intro q hq
    have := create_frame flags insFail emp_row.name st first "IN" q (hq first hfirstg)
    rwa [hres1] at this
  by_cases hlf : ((first :: tail).getLastD first).punch_name = first.punch_name
  case pos =>
    have hlf2 := hlf
    rw [List.getLastD_eq_getLast?] at hlf2
    have hrun : processGroup flags insFail st g =
        RRes.ok (((first :: tail).filter (fun p =>
          ¬(p.punch_name = first.punch_name ∨
            p.punch_name = ((first :: tail).getLastD first).punch_name))).foldl
          (fun s p => { s with store := updatePunch s.store p.punch_name setSynced }) st1) := by
      simp [processGroup, h1, hf, hst, hsort, hres1, hlf2]
    rw [hrun]
    refine ⟨?_, ?_, ?_, ?_⟩
    · exact storeEvolves_trans (foldMark_evolves _ _) e1
    · simp only [rState]
      rw [foldMark_checkins]
      rcases c1 with heq1 | ⟨c, heq1, -, hlog1, -⟩
      · exact ⟨[], by simpa [rState] using heq1, by simp⟩
      · refine ⟨[c], by simpa [rState] using heq1, ?_⟩
        intro x hx
        rw [List.mem_singleton] at hx
        exact ⟨hbadf, first, hfirstg, hx ▸ hlog1⟩
    · intro q hq
      have hfr := foldMark_frame
        ((first :: tail).filter (fun p =>
          ¬(p.punch_name = first.punch_name ∨
            p.punch_name = ((first :: tail).getLastD first).punch_name)))
        st1 q (fun r hr => hq r (hmemg r (List.mem_of_mem_filter hr)))
      exact hfr.trans (f1 q hq)
    · intro h
      have hu := u1 h
      unfold CheckinUnique at hu ⊢
      simp only [rState]
      rw [foldMark_checkins]
      exact hu
  case neg =>
  cases hres2 : create_checkin_for_punch flags insFail emp_row.name st1
      ((first :: tail).getLastD first) "OUT" with
  | err st2 e =>
    have hlf2 := hlf
    rw [List.getLastD_eq_getLast?] at hlf2
    have hres2b := hres2
    rw [List.getLastD_eq_getLast?] at hres2b
    have hrun : processGroup flags insFail st g = RRes.err st2 e := by
      simp [processGroup, h1, hf, hst, hsort, hres1, hlf2, hres2b]
    rw [hrun]
    have e2 : StoreEvolves st2.store st1.store := by
      have := create_evolves flags insFail emp_row.name st1
        ((first :: tail).getLastD first) "OUT"
      rwa [hres2] at this
    have c2 := create_checkins_spec flags insFail emp_row.name st1
      ((first :: tail).getLastD first) "OUT"
    rw [hres2] at c2
    have u2 : CheckinUnique st1.store → CheckinUnique st2.store := by
      intro h
      have := create_checkinUnique flags insFail emp_row.name st1
        ((first :: tail).getLastD first) "OUT" h
      rwa [hres2] at this
    refine ⟨storeEvolves_trans e2 e1, ?_, ?_, fun h => u2 (u1 h)⟩
    · rcases c1 with heq1 | ⟨c, heq1, -, hlog1, -⟩ <;>
        rcases c2 with heq2 | ⟨c2x, heq2, -, hlog2, -⟩
      · exact ⟨[], by simp [rState] at heq2 heq1 ⊢; rw [heq2, heq1], by simp⟩
      · refine ⟨[c2x], by simp [rState] at heq2 heq1 ⊢; rw [heq2, heq1], ?_⟩
        intro x hx
        rw [List.mem_singleton] at hx
        exact ⟨hbadf, _, hlastg, hx ▸ hlog2⟩
      · refine ⟨[c], by simp [rState] at heq2 heq1 ⊢; rw [heq2, heq1], ?_⟩
        intro x hx
        rw [List.mem_singleton] at hx
        exact ⟨hbadf, first, hfirstg, hx ▸ hlog1⟩
      · refine ⟨[c] ++ [c2x], by
          simp [rState] at heq2 heq1 ⊢
          rw [heq2, heq1]
          simp, ?_⟩
        intro x hx
        rcases List.mem_append.1 hx with hx | hx <;> rw [List.mem_singleton] at hx
        · exact ⟨hbadf, first, hfirstg, hx ▸ hlog1⟩
        · exact ⟨hbadf, _, hlastg, hx ▸ hlog2⟩
    · intro q hq
      have := create_frame flags insFail emp_row.name st1
        ((first :: tail).getLastD first) "OUT" q (hq _ hlastg)
      rw [hres2] at this
      exact this.trans (f1 q hq)
  | ok st2 =>
    have hlf2 := hlf
    rw [List.getLastD_eq_getLast?] at hlf2
    have hres2b := hres2
    rw [List.getLastD_eq_getLast?] at hres2b
    have hrun : processGroup flags insFail st g =
        RRes.ok (((first :: tail).filter (fun p =>
          ¬(p.punch_name = first.punch_name ∨
            p.punch_name = ((first :: tail).getLastD first).punch_name))).foldl
          (fun s p => { s with store := updatePunch s.store p.punch_name setSynced }) st2) := by
      simp [processGroup, h1, hf, hst, hsort, hres1, hlf2, hres2b]
    rw [hrun]
    have e2 : StoreEvolves st2.store st1.store := by
      have := create_evolves flags insFail emp_row.name st1
        ((first :: tail).getLastD first) "OUT"
      rwa [hres2] at this
    have c2 := create_checkins_spec flags insFail emp_row.name st1
      ((first :: tail).getLastD first) "OUT"
    rw [hres2] at c2
    have u2 : CheckinUnique st1.store → CheckinUnique st2.store := by
      intro h
      have := create_checkinUnique flags insFail emp_row.name st1
        ((first :: tail).getLastD first) "OUT" h
      rwa [hres2] at this
    have f2 : ∀ q, (∀ r ∈ g.2, q ≠ r.punch_name) →
        findPunch st2.store q = findPunch st1.store q := by
      intro q hq
      have := create_frame flags insFail emp_row.name st1
        ((first :: tail).getLastD first) "OUT" q (hq _ hlastg)
      rwa [hres2] at this
    refine ⟨?_, ?_, ?_, ?_⟩
    · exact storeEvolves_trans (foldMark_evolves _ _) (storeEvolves_trans e2 e1)
    · simp only [rState]
      rw [foldMark_checkins]
      rcases c1 with heq1 | ⟨c, heq1, -, hlog1, -⟩ <;>
        rcases c2 with heq2 | ⟨c2x, heq2, -, hlog2, -⟩
      · exact ⟨[], by simp [rState] at heq2 heq1 ⊢; rw [heq2, heq1], by simp⟩
      · refine ⟨[c2x], by simp [rState] at heq2 heq1 ⊢; rw [heq2, heq1], ?_⟩
        intro x hx
        rw [List.mem_singleton] at hx
        exact ⟨hbadf, _, hlastg, hx ▸ hlog2⟩
      · refine ⟨[c], by simp [rState] at heq2 heq1 ⊢; rw [heq2, heq1], ?_⟩
        intro x hx
        rw [List.mem_singleton] at hx
        exact ⟨hbadf, first, hfirstg, hx ▸ hlog1⟩
      · refine ⟨[c] ++ [c2x], by
          simp [rState] at heq2 heq1 ⊢
          rw [heq2, heq1]
          simp, ?_⟩
        intro x hx
        rcases List.mem_append.1 hx with hx | hx <;> rw [List.mem_singleton] at hx
        · exact ⟨hbadf, first, hfirstg, hx ▸ hlog1⟩
        · exact ⟨hbadf, _, hlastg, hx ▸ hlog2⟩
    · intro q hq
      have hfr := foldMark_frame
        ((first :: tail).filter (fun p =>
          ¬(p.punch_name = first.punch_name ∨
            p.punch_name = ((first :: tail).getLastD first).punch_name)))
        st2 q (fun r hr => hq r (hmemg r (List.mem_of_mem_filter hr)))
      exact hfr.trans ((f2 q hq).trans (f1 q hq))
    · intro h
      have hu := u2 (u1 h)
      unfold CheckinUnique at hu ⊢
      simp only [rState]
      rw [foldMark_checkins]
      exact hu

theorem processGroup_good_marks (flags : RFlags) (insFail : Nat → Bool) (st : RState)
    (g : (String × String) × List Row) (emp_row : EmployeeRec) (st' : RState)
    (h1 : ¬g.1.1 = "")
    (hf : st.store.employees.find? (fun e => e.attendance_device_id = g.1.1) = some emp_row)
    (hst : emp_row.status = "Active")
    (hok : processGroup flags insFail st g = RRes.ok st') :
    ∀ r ∈ g.2, (∃ p, findPunch st.store r.punch_name = some p) →
      syncedTrue st'.store r.punch_name := by
  cases hsort : pySortRows g.2 with
  | none =>
    have hrun : processGroup flags insFail st g = RRes.err st RErr.sortTypeError := by
      simp [processGroup, h1, hf, hst, hsort]
    rw [hrun] at hok
    cases hok
  | some sorted =>
  have hperm := pySortRows_perm g.2 sorted hsort
  cases sorted with
  | nil =>
    have hempty : g.2 = [] := hperm.symm.eq_nil
    rw [hempty]
    intro r hr
    cases hr
  | cons first tail =>
  have hmems : ∀ r ∈ g.2, r ∈ first :: tail := fun r hr => hperm.mem_iff.2 hr
  have hfirstg : first ∈ g.2 := hperm.mem_iff.1 (List.mem_cons_self _ _)
  have hlastg : (first :: tail).getLastD first ∈ g.2 := by
    apply hperm.mem_iff.1
    rw [List.getLastD_eq_getLast?]
    cases hli : (first :: tail).getLast? with
    | none => simp at hli
    | some x =>
      simp only [Option.getD_some]
      exact List.mem_of_getLast?_eq_some hli
  cases hres1 : create_checkin_for_punch flags insFail emp_row.name st first "IN" with
  | err st1 e =>
    have hrun : processGroup flags insFail st g = RRes.err st1 e := by
      simp [processGroup, h1, hf, hst, hsort, hres1]
    rw [hrun] at hok
    cases hok
  | ok st1 =>
  have e1 : StoreEvolves st1.store st.store := by
    have := create_evolves flags insFail emp_row.name st first "IN"
    rwa [hres1] at this
  by_cases hlf : ((first :: tail).getLastD first).punch_name = first.punch_name
  case pos =>
    have hlf2 := hlf
    rw [List.getLastD_eq_getLast?] at hlf2
    have hrun : processGroup flags insFail st g =
        RRes.ok (((first :: tail).filter (fun p =>
          ¬(p.punch_name = first.punch_name ∨
            p.punch_name = ((first :: tail).getLastD first).punch_name))).foldl
          (fun s p => { s with store := updatePunch s.store p.punch_name setSynced }) st1) := by
      simp [processGroup, h1, hf, hst, hsort, hres1, hlf2]
    rw [hrun] at hok
    injection hok with hok2
    subst hok2
    intro r hr hex
    by_cases hname : r.punch_name = first.punch_name
    · have hstep : syncedTrue st1.store first.punch_name :=
        create_ok_marks flags insFail emp_row.name st first "IN" st1 hres1 (hname ▸ hex)
      rw [hname]
      exact syncedTrue_evolves (foldMark_evolves _ _) _ hstep
    · have hnl : ¬r.punch_name = ((first :: tail).getLast?.getD first).punch_name :=
        fun h => hname (h.trans hlf2)
      have hmem : r ∈ (first :: tail).filter (fun p =>
          ¬(p.punch_name = first.punch_name ∨
            p.punch_name = ((first :: tail).getLastD first).punch_name)) :=
        List.mem_filter.2 ⟨hmems r hr,
          by simp [hname, List.getLastD_eq_getLast?, hnl]⟩
      exact foldMark_marks _ st1 r hmem (findPunch_exists_evolves e1 _ hex)
  case neg =>
  have hlf2 : ¬((first :: tail).getLast?.getD first).punch_name = first.punch_name := by
    rw [← List.getLastD_eq_getLast?]
    exact hlf
  cases hres2 : create_checkin_for_punch flags insFail emp_row.name st1
      ((first :: tail).getLastD first) "OUT" with
  | err st2 e =>
    have hres2b := hres2
    rw [List.getLastD_eq_getLast?] at hres2b
    have hrun : processGroup flags insFail st g = RRes.err st2 e := by
      simp [processGroup, h1, hf, hst, hsort, hres1, hlf2, hres2b]
    rw [hrun] at hok
    cases hok
  | ok st2 =>
    have hres2b := hres2
    rw [List.getLastD_eq_getLast?] at hres2b
    have hrun : processGroup flags insFail st g =
        RRes.ok (((first :: tail).filter (fun p =>
          ¬(p.punch_name = first.punch_name ∨
            p.punch_name = ((first :: tail).getLastD first).punch_name))).foldl
          (fun s p => { s with store := updatePunch s.store p.punch_name setSynced }) st2) := by
      simp [processGroup, h1, hf, hst, hsort, hres1, hlf2, hres2b]
    rw [hrun] at hok
    injection hok with hok2
    subst hok2
    have e2 : StoreEvolves st2.store st1.store := by
      have := create_evolves flags insFail emp_row.name st1
        ((first :: tail).getLastD first) "OUT"
      rwa [hres2] at this
    intro r hr hex
    by_cases hname : r.punch_name = first.punch_name
    · have hstep : syncedTrue st1.store first.punch_name :=
        create_ok_marks flags insFail emp_row.name st first "IN" st1 hres1 (hname ▸ hex)
      rw [hname]
      exact syncedTrue_evolves (foldMark_evolves _ _) _
        (syncedTrue_evolves e2 _ hstep)
    · by_cases hnamel : r.punch_name = ((first :: tail).getLastD first).punch_name
      · have hexl : ∃ p, findPunch st1.store
            ((first :: tail).getLastD first).punch_name = some p :=
          findPunch_exists_evolves e1 _ (hnamel ▸ hex)
        have hstep : syncedTrue st2.store ((first :: tail).getLastD first).punch_name :=
          create_ok_marks flags insFail emp_row.name st1
            ((first :: tail).getLastD first) "OUT" st2 hres2 hexl
        rw [hnamel]
        exact syncedTrue_evolves (foldMark_evolves _ _) _ hstep
      · have hnamel2 : ¬r.punch_name = ((first :: tail).getLast?.getD first).punch_name := by
          rw [← List.getLastD_eq_getLast?]
          exact hnamel
        have hmem : r ∈ (first :: tail).filter (fun p =>
            ¬(p.punch_name = first.punch_name ∨
              p.punch_name = ((first :: tail).getLastD first).punch_name)) :=
          List.mem_filter.2 ⟨hmems r hr,
            by simp [hname, List.getLastD_eq_getLast?, hnamel2]⟩
        exact foldMark_marks _ st2 r hmem
          (findPunch_exists_evolves e2 _ (findPunch_exists_evolves e1 _ hex))

theorem processGroups_append_ok (flags : RFlags) (insFail : Nat → Bool) :
    ∀ (gs1 : List ((String × String) × List Row)) (st st1 : RState)
      (gs2 : List ((String × String) × List Row)),
      processGroups flags insFail st gs1 = .ok st1 →
      processGroups flags insFail st (gs1 ++ gs2) = processGroups flags insFail st1 gs2
  | [], st, st1, gs2, h => by
    injection h with h1
    rw [h1]
    rfl
  | g :: gs1, st, st1, gs2, h => by
    cases hres : processGroup flags insFail st g with
    | ok sta =>
      rw [show processGroups flags insFail st (g :: gs1) =
          processGroups flags insFail sta gs1 from by simp only [processGroups, hres]] at h
      show processGroups flags insFail st (g :: (gs1 ++ gs2)) = _
      rw [show processGroups flags insFail st (g :: (gs1 ++ gs2)) =
          processGroups flags insFail sta (gs1 ++ gs2) from by simp only [processGroups, hres]]
      exact processGroups_append_ok flags insFail gs1 sta st1 gs2 h
    | err sta e =>
      rw [show processGroups flags insFail st (g :: gs1) = RRes.err sta e from by
        simp only [processGroups, hres]] at h
      cases h

theorem processGroups_append_err (flags : RFlags) (insFail : Nat → Bool) :
    ∀ (gs1 : List ((String × String) × List Row)) (st st1 : RState) (e : RErr)
      (gs2 : List ((String × String) × List Row)),
      processGroups flags insFail st gs1 = .err st1 e →
      processGroups flags insFail st (gs1 ++ gs2) = .err st1 e
  | [], _, _, _, _, h => by cases h
  | g :: gs1, st, st1, e, gs2, h => by
    cases hres : processGroup flags insFail st g with
    | ok sta =>
      rw [show processGroups flags insFail st (g :: gs1) =
          processGroups flags insFail sta gs1 from by simp only [processGroups, hres]] at h
      show processGroups flags insFail st (g :: (gs1 ++ gs2)) = _
      rw [show processGroups flags insFail st (g :: (gs1 ++ gs2)) =
          processGroups flags insFail sta (gs1 ++ gs2) from by simp only [processGroups, hres]]
      exact processGroups_append_err flags insFail gs1 sta st1 e gs2 h
    | err sta e1 =>
      rw [show processGroups flags insFail st (g :: gs1) = RRes.err sta e1 from by
        simp only [processGroups, hres]] at h
      show processGroups flags insFail st (g :: (gs1 ++ gs2)) = _
      rw [show processGroups flags insFail st (g :: (gs1 ++ gs2)) = RRes.err sta e1 from by
        simp only [processGroups, hres]]
      exact h

theorem processGroups_master (flags : RFlags) (insFail : Nat → Bool) :
    ∀ (gs : List ((String × String) × List Row)) (st : RState),
      StoreEvolves (rState (processGroups flags insFail st gs)).store st.store ∧
      (∃ new, (rState (processGroups flags insFail st gs)).store.checkins =
          st.store.checkins ++ new ∧
        ∀ c ∈ new, ∃ g ∈ gs, badEmpNoB st.store.employees g.1.1 = false ∧ ∃ r ∈ g.2,
          c.biometric_log =
            (if flags.checkin_has_biometric_log then some r.log_name else none)) ∧
      (∀ q, (∀ g ∈ gs, ∀ r ∈ g.2, q ≠ r.punch_name) →
        findPunch (rState (processGroups flags insFail st gs)).store q =
          findPunch st.store q) ∧
      (CheckinUnique st.store → CheckinUnique (rState (processGroups flags insFail st gs)).store)
  | [], st =>
    ⟨storeEvolves_refl _, ⟨[], by simp [rState, processGroups], by simp⟩,
     fun q _ => rfl, fun h => h⟩
  | g :: gs, st => by
    have hg := processGroup_master flags insFail st g
    cases hres : processGroup flags insFail st g with
    | ok st1 =>
      rw [hres] at hg
      have ih := processGroups_master flags insFail gs st1
      have hrw : processGroups flags insFail st (g :: gs) =
          processGroups flags insFail st1 gs := by
        simp only [processGroups, hres]
      rw [hrw]
      obtain ⟨hgev, ⟨new1, hgc, hgorig⟩, hgfr, hgu⟩ := hg
      obtain ⟨ihev, ⟨new2, ihc, ihorig⟩, ihfr, ihu⟩ := ih
      refine ⟨storeEvolves_trans ihev hgev, ⟨new1 ++ new2, ?_, ?_⟩, ?_, fun h => ihu (hgu h)⟩
      · rw [ihc]
        simp only [rState] at hgc
        rw [hgc, List.append_assoc]
      · intro c hc
        rcases List.mem_append.1 hc with hc | hc
        · obtain ⟨hbadf, r, hr, hlog⟩ := hgorig c hc
          exact ⟨g, List.mem_cons_self _ _, hbadf, r, hr, hlog⟩
        · obtain ⟨g2, hg2, hbadf, r, hr, hlog⟩ := ihorig c hc
          have hemps : st1.store.employees = st.store.employees := hgev.1
          rw [hemps] at hbadf
          exact ⟨g2, List.mem_cons_of_mem _ hg2, hbadf, r, hr, hlog⟩
      · intro q hq
        have h2 := ihfr q (fun g2 hg2 r hr => hq g2 (List.mem_cons_of_mem _ hg2) r hr)
        have h1 := hgfr q (fun r hr => hq g (List.mem_cons_self _ _) r hr)
        simp only [rState] at h1
        exact h2.trans h1
    | err st1 e =>
      rw [hres] at hg
      have hrw : processGroups flags insFail st (g :: gs) = RRes.err st1 e := by
        simp only [processGroups, hres]
      rw [hrw]
      obtain ⟨hgev, ⟨new1, hgc, hgorig⟩, hgfr, hgu⟩ := hg
      refine ⟨hgev, ⟨new1, hgc, ?_⟩, ?_, hgu⟩
      · intro c hc
        obtain ⟨hbadf, r, hr, hlog⟩ := hgorig c hc
        exact ⟨g, List.mem_cons_self _ _, hbadf, r, hr, hlog⟩
      · intro q hq
        exact hgfr q (fun r hr => hq g (List.mem_cons_self _ _) r hr)

theorem processGroups_err_split (flags : RFlags) (insFail : Nat → Bool) :
    ∀ (gs : List ((String × String) × List Row)) (st st' : RState) (e : RErr),
      processGroups flags insFail st gs = .err st' e →
      ∃ gs1 g gs2 st0, gs = gs1 ++ g :: gs2 ∧
        processGroups flags insFail st gs1 = .ok st0 ∧
        processGroup flags insFail st0 g = .err st' e
  | [], st, st', e, h => by cases h
  | g :: gs, st, st', e, h => by
    cases hres : processGroup flags insFail st g with
    | ok st1 =>
      rw [show processGroups flags insFail st (g :: gs) =
          processGroups flags insFail st1 gs from by simp only [processGroups, hres]] at h
      obtain ⟨gs1, g2, gs2, st0, hsplit, hpref, herr⟩ :=
        processGroups_err_split flags insFail gs st1 st' e h
      refine ⟨g :: gs1, g2, gs2, st0, by simp [hsplit], ?_, herr⟩
      simp only [processGroups, hres]
      exact hpref
    | err st1 e1 =>
      rw [show processGroups flags insFail st (g :: gs) = RRes.err st1 e1 from by
        simp only [processGroups, hres]] at h
      injection h with h1 h2
      exact ⟨[], g, gs, st, rfl, rfl, by rw [hres, h1, h2]⟩

theorem processGroups_ok_prefix (flags : RFlags) (insFail : Nat → Bool)
    (gs1 : List ((String × String) × List Row)) (g : (String × String) × List Row)
    (gs2 : List ((String × String) × List Row)) (st st' : RState)
    (h : processGroups flags insFail st (gs1 ++ g :: gs2) = .ok st') :
    ∃ sta stb, processGroups flags insFail st gs1 = .ok sta ∧
      processGroup flags insFail sta g = .ok stb ∧
      processGroups flags insFail stb gs2 = .ok st' := by
  cases h1 : processGroups flags insFail st gs1 with
  | err sta e =>
    rw [processGroups_append_err flags insFail gs1 st sta e (g :: gs2) h1] at h
    cases h
  | ok sta =>
    rw [processGroups_append_ok flags insFail gs1 st sta (g :: gs2) h1] at h
    cases h2 : processGroup flags insFail sta g with
    | err stb e =>
      rw [show processGroups flags insFail sta (g :: gs2) = RRes.err stb e from by
        simp only [processGroups, h2]] at h
      cases h
    | ok stb =>
      rw [show processGroups flags insFail sta (g :: gs2) =
          processGroups flags insFail stb gs2 from by simp only [processGroups, h2]] at h
      exact ⟨sta, stb, rfl, h2, h⟩

theorem addRowToGroups_mem (r : Row) :
    ∀ (gs : List ((String × String) × List Row)) (r' : Row),
      (∃ g ∈ addRowToGroups gs r', r ∈ g.2) ↔ (∃ g ∈ gs, r ∈ g.2) ∨ r = r'
  | [], r' => by
    simp [addRowToGroups, eq_comm]
  | (k, rs) :: rest, r' => by
    unfold addRowToGroups
    by_cases hk : k = (r'.employee_no, r'.event_date)
    · rw [if_pos hk]
      constructor
      · rintro ⟨g, hg, hrg⟩
        rcases List.mem_cons.1 hg with rfl | hg
        · rcases List.mem_append.1 hrg with hrg | hrg
          · exact Or.inl ⟨(k, rs), List.mem_cons_self _ _, hrg⟩
          · rw [List.mem_singleton] at hrg
            exact Or.inr hrg
        · exact Or.inl ⟨g, List.mem_cons_of_mem _ hg, hrg⟩
      · rintro (⟨g, hg, hrg⟩ | rfl)
        · rcases List.mem_cons.1 hg with rfl | hg
          · exact ⟨(k, rs ++ [r']), List.mem_cons_self _ _, List.mem_append.2 (Or.inl hrg)⟩
          · exact ⟨g, List.mem_cons_of_mem _ hg, hrg⟩
        · exact ⟨(k, rs ++ [r]), List.mem_cons_self _ _,
            List.mem_append.2 (Or.inr (List.mem_singleton.2 rfl))⟩
    · rw [if_neg hk]
      constructor
      · rintro ⟨g, hg, hrg⟩
        rcases List.mem_cons.1 hg with rfl | hg
        · exact Or.inl ⟨(k, rs), List.mem_cons_self _ _, hrg⟩
        · rcases (addRowToGroups_mem r rest r').1 ⟨g, hg, hrg⟩ with ⟨g2, hg2, hrg2⟩ | hr
          · exact Or.inl ⟨g2, List.mem_cons_of_mem _ hg2, hrg2⟩
          · exact Or.inr hr
      · rintro (⟨g, hg, hrg⟩ | rfl)
        · rcases List.mem_cons.1 hg with rfl | hg2
          · exact ⟨(k, rs), List.mem_cons_self _ _, hrg⟩
          · obtain ⟨g2, hg3, hrg2⟩ :=
              (addRowToGroups_mem r rest r').2 (Or.inl ⟨g, hg2, hrg⟩)
            exact ⟨g2, List.mem_cons_of_mem _ hg3, hrg2⟩
        · obtain ⟨g2, hg2, hrg2⟩ := (addRowToGroups_mem r rest r).2 (Or.inr rfl)
          exact ⟨g2, List.mem_cons_of_mem _ hg2, hrg2⟩

theorem buildGroups_complete_aux (r : Row) :
    ∀ (rows : List Row) (acc : List ((String × String) × List Row)),
      (r ∈ rows ∨ ∃ g ∈ acc, r ∈ g.2) →
      ∃ g ∈ rows.foldl addRowToGroups acc, r ∈ g.2
  | [], acc, h => by
    rcases h with h | h
    · cases h
    · exact h
  | r' :: rows, acc, h => by
    apply buildGroups_complete_aux r rows (addRowToGroups acc r')
    rcases h with h | h
    · rcases List.mem_cons.1 h with rfl | h
      · exact Or.inr ((addRowToGroups_mem r acc r).2 (Or.inr rfl))
      · exact Or.inl h
    · exact Or.inr ((addRowToGroups_mem r acc r').2 (Or.inl h))

theorem buildGroups_complete (rows : List Row) (r : Row) (h : r ∈ rows) :
    ∃ g ∈ buildGroups rows, r ∈ g.2 :=
  buildGroups_complete_aux r rows [] (Or.inl h)

theorem addRowToGroups_keys :
    ∀ (gs : List ((String × String) × List Row)) (r' : Row),
      (∀ g ∈ gs, ∀ r ∈ g.2, (r.employee_no, r.event_date) = g.1) →
      ∀ g ∈ addRowToGroups gs r', ∀ r ∈ g.2, (r.employee_no, r.event_date) = g.1
  | [], r', _ => by
    intro g hg r hr
    simp only [addRowToGroups, List.mem_singleton] at hg
    subst hg
    simp only [List.mem_singleton] at hr
    subst hr
    rfl
  | (k, rs) :: rest, r', h => by
    unfold addRowToGroups
    by_cases hk : k = (r'.employee_no, r'.event_date)
    · rw [if_pos hk]
      intro g hg r hr
      rcases List.mem_cons.1 hg with rfl | hg
      · rcases List.mem_append.1 hr with hr | hr
        · exact h (k, rs) (List.mem_cons_self _ _) r hr
        · rw [List.mem_singleton] at hr
          subst hr
          exact hk.symm
      · exact h g (List.mem_cons_of_mem _ hg) r hr
    · rw [if_neg hk]
      intro g hg r hr
      rcases List.mem_cons.1 hg with rfl | hg
      · exact h (k, rs) (List.mem_cons_self _ _) r hr
      · exact addRowToGroups_keys rest r'
          (fun g2 hg2 => h g2 (List.mem_cons_of_mem _ hg2)) g hg r hr

theorem buildGroups_keys_aux :
    ∀ (rows : List Row) (acc : List ((String × String) × List Row)),
      (∀ g ∈ acc, ∀ r ∈ g.2, (r.employee_no, r.event_date) = g.1) →
      ∀ g ∈ rows.foldl addRowToGroups acc, ∀ r ∈ g.2, (r.employee_no, r.event_date) = g.1
  | [], _, h => h
  | r' :: rows, acc, h =>
    buildGroups_keys_aux rows (addRowToGroups acc r') (addRowToGroups_keys acc r' h)

theorem buildGroups_keys (rows : List Row) :
    ∀ g ∈ buildGroups rows, ∀ r ∈ g.2, (r.employee_no, r.event_date) = g.1 :=
  buildGroups_keys_aux rows [] (by intro g hg; cases hg)

theorem addRowToGroups_nonempty :
    ∀ (gs : List ((String × String) × List Row)) (r' : Row),
      (∀ g ∈ gs, g.2 ≠ []) → ∀ g ∈ addRowToGroups gs r', g.2 ≠ []
  | [], r', _ => by
    intro g hg
    simp only [addRowToGroups, List.mem_singleton] at hg
    subst hg
    simp
  | (k, rs) :: rest, r', h => by
    unfold addRowToGroups
    by_cases hk : k = (r'.employee_no, r'.event_date)
    · rw [if_pos hk]
      intro g hg
      rcases List.mem_cons.1 hg with rfl | hg
      · simp
      · exact h g (List.mem_cons_of_mem _ hg)
    · rw [if_neg hk]
      intro g hg
      rcases List.mem_cons.1 hg with rfl | hg
      · exact h (k, rs) (List.mem_cons_self _ _)
      · exact addRowToGroups_nonempty rest r'
          (fun g2 hg2 => h g2 (List.mem_cons_of_mem _ hg2)) g hg

theorem buildGroups_nonempty_aux :
    ∀ (rows : List Row) (acc : List ((String × String) × List Row)),
      (∀ g ∈ acc, g.2 ≠ []) →
      ∀ g ∈ rows.foldl addRowToGroups acc, g.2 ≠ []
  | [], _, h => h
  | r' :: rows, acc, h =>
    buildGroups_nonempty_aux rows (addRowToGroups acc r') (addRowToGroups_nonempty acc r' h)

theorem buildGroups_nonempty (rows : List Row) :
    ∀ g ∈ buildGroups rows, g.2 ≠ [] :=
  buildGroups_nonempty_aux rows [] (by intro g hg; cases hg)

theorem mem_selectUnsynced (store : RStore) (r : Row) :
    r ∈ selectUnsynced store ↔
      ∃ l ∈ store.logs, ∃ p ∈ l.punch_table,
        p.synced_to_employee_checkin = false ∧ r = rowOf l p := by
  unfold selectUnsynced
  rw [List.Perm.mem_iff (List.perm_insertionSort _ _)]
  simp only [List.mem_flatMap, List.mem_map, List.mem_filter]
  constructor
  · rintro ⟨l, hl, p, ⟨hp, hsync⟩, rfl⟩
    refine ⟨l, hl, p, hp, ?_, rfl⟩
    simpa using hsync
  · rintro ⟨l, hl, p, hp, hsync, rfl⟩
    exact ⟨l, hl, p, ⟨hp, by simpa using hsync⟩, rfl⟩

theorem findPunch_isSome_of_mem (store : RStore) (l : BLog) (p : BPunch)
    (hl : l ∈ store.logs) (hp : p ∈ l.punch_table) :
    ∃ q, findPunch store p.name = some q := by
  cases hres : findPunch store p.name with
  | some q => exact ⟨q, rfl⟩
  | none =>
    exfalso
    unfold findPunch at hres
    rw [List.findSome?_eq_none_iff] at hres
    have := hres l hl
    rw [List.find?_eq_none] at this
    exact this p hp (by simp)

theorem processGroups_frame_or_bad (flags : RFlags) (insFail : Nat → Bool) :
    ∀ (gs : List ((String × String) × List Row)) (st : RState) (q : Nat),
      (∀ g ∈ gs, badEmpNoB st.store.employees g.1.1 = true ∨ ∀ r ∈ g.2, q ≠ r.punch_name) →
      findPunch (rState (processGroups flags insFail st gs)).store q = findPunch st.store q
  | [], _, _, _ => rfl
  | g :: gs, st, q, h => by
    rcases h g (List.mem_cons_self _ _) with hbad | hframe
    · have hrun : processGroup flags insFail st g = .ok st :=
        processGroup_bad flags insFail st g hbad
      rw [show processGroups flags insFail st (g :: gs) =
          processGroups flags insFail st gs from by simp only [processGroups, hrun]]
      exact processGroups_frame_or_bad flags insFail gs st q
        (fun g2 hg2 => h g2 (List.mem_cons_of_mem _ hg2))
    · have hg := processGroup_master flags insFail st g
      cases hres : processGroup flags insFail st g with
      | ok st1 =>
        rw [hres] at hg
        rw [show processGroups flags insFail st (g :: gs) =
            processGroups flags insFail st1 gs from by simp only [processGroups, hres]]
        have hframe1 : findPunch st1.store q = findPunch st.store q := hg.2.2.1 q hframe
        have hemps : st1.store.employees = st.store.employees := hg.1.1
        have hrec := processGroups_frame_or_bad flags insFail gs st1 q
          (by rw [hemps]; exact fun g2 hg2 => h g2 (List.mem_cons_of_mem _ hg2))
        exact hrec.trans hframe1
      | err st1 e =>
        rw [hres] at hg
        rw [show processGroups flags insFail st (g :: gs) = RRes.err st1 e from by
          simp only [processGroups, hres]]
        exact hg.2.2.1 q hframe

theorem buildGroups_sound_aux (r : Row) :
    ∀ (rows : List Row) (acc : List ((String × String) × List Row)),
      (∃ g ∈ rows.foldl addRowToGroups acc, r ∈ g.2) →
      (∃ g ∈ acc, r ∈ g.2) ∨ r ∈ rows
  | [], _, h => Or.inl h
  | r' :: rows, acc, h => by
    rcases buildGroups_sound_aux r rows (addRowToGroups acc r') h with h2 | h2
    · rcases (addRowToGroups_mem r acc r').1 h2 with h3 | h3
      · exact Or.inl h3
      · exact Or.inr (h3 ▸ List.mem_cons_self _ _)
    · exact Or.inr (List.mem_cons_of_mem _ h2)

theorem buildGroups_sound (rows : List Row) (g : (String × String) × List Row)
    (hg : g ∈ buildGroups rows) (r : Row) (hr : r ∈ g.2) : r ∈ rows := by
  rcases buildGroups_sound_aux r rows [] ⟨g, hg, hr⟩ with ⟨g2, hg2, -⟩ | h
  · cases hg2
  · exact h

theorem punchNames_unique (store : RStore) (hwf : (punchNames store.logs).Nodup)
    {l l' : BLog} {p p' : BPunch}
    (hl : l ∈ store.logs) (hp : p ∈ l.punch_table)
    (hl' : l' ∈ store.logs) (hp' : p' ∈ l'.punch_table)
    (hn : p.name = p'.name) : l = l' ∧ p = p' := by
  unfold punchNames at hwf
  rw [List.nodup_flatMap] at hwf
  by_cases hll : l = l'
  · subst hll
    refine ⟨rfl, ?_⟩
    have hnodup : (l.punch_table.map (fun p => p.name)).Nodup := hwf.1 l hl
    exact List.inj_on_of_nodup_map hnodup hp hp' hn
  · exfalso
    have hpw := hwf.2
    have hdisj : Function.onFun List.Disjoint
        (fun l => l.punch_table.map (fun p => p.name)) l l' :=
      List.Pairwise.forall (fun x y h => List.disjoint_symm h) hpw hl hl' hll
    exact hdisj (List.mem_map.2 ⟨p, hp, rfl⟩) (hn ▸ List.mem_map.2 ⟨p', hp', rfl⟩)

/-- C6: the reducer preserves the invariant that at most one Checkin Event
exists per `(employee, time)` pair: every insert is guarded by an existence
check against the current checkins, so a run that starts from a store
satisfying the invariant ends (normally or with an exception) in a store
satisfying it. -/
theorem C6_checkin_unique_invariant (flags : RFlags) (insFail : Nat → Bool) (store : RStore)
    (hinv : CheckinUnique store) :
    CheckinUnique (rState (sync_punches_to_employee_checkin flags insFail store)).store := by
  unfold sync_punches_to_employee_checkin
  by_cases hrows : (selectUnsynced store).isEmpty
  · rw [if_pos hrows]
    exact hinv
  · rw [if_neg hrows]
    exact (processGroups_master flags insFail _
      { store := store, created := 0, already_synced := 0, insTick := 0 }).2.2.2 hinv

/-- C6 witness: the invariant check at the concrete one-punch store. -/
theorem C6_checkin_unique_invariant_witness :
    CheckinUnique c1Store ∧
    CheckinUnique (rState (sync_punches_to_employee_checkin exFlags noFail c1Store)).store :=
  ⟨by decide, C6_checkin_unique_invariant exFlags noFail c1Store (by decide)⟩

/-- C7: a group whose employee number is empty, unknown, or mapped to a
non-Active employee is skipped: after any reducer run every punch of that
log is exactly as before (in particular still unsynced), and no checkin
created by the run links back to that log. -/
theorem C7_unresolved_group_skipped (flags : RFlags) (insFail : Nat → Bool) (store : RStore)
    (l : BLog) (hwf : WfR store) (hl : l ∈ store.logs)
    (hbad : badEmpNoB store.employees l.employee_no = true) :
    (∀ p ∈ l.punch_table,
      findPunch (rState (sync_punches_to_employee_checkin flags insFail store)).store p.name =
        findPunch store p.name) ∧
    (∀ c ∈ (rState (sync_punches_to_employee_checkin flags insFail store)).store.checkins,
      c ∉ store.checkins → flags.checkin_has_biometric_log = true →
        c.biometric_log ≠ some l.name) := by
  unfold sync_punches_to_employee_checkin
  by_cases hrows : (selectUnsynced store).isEmpty
  · rw [if_pos hrows]
    exact ⟨fun p _ => rfl, fun c hc hnc _ => absurd hc hnc⟩
  · rw [if_neg hrows]
    constructor
    · intro p hp
      apply processGroups_frame_or_bad
      intro g hg
      by_cases hc : ∃ r ∈ g.2, r.punch_name = p.name
      · left
        obtain ⟨r, hr, hrname⟩ := hc
        have hrrows := buildGroups_sound _ g hg r hr
        obtain ⟨l2, hl2, p2, hp2, -, rfl⟩ := (mem_selectUnsynced store r).1 hrrows
        have := punchNames_unique store hwf.1 hl2 hp2 hl hp hrname
        obtain ⟨rfl, rfl⟩ := this
        have hkey := buildGroups_keys _ g hg _ hr
        have hemp : g.1.1 = l2.employee_no := by
          rw [← hkey]
          rfl
        show badEmpNoB store.employees g.1.1 = true
        rw [hemp]
        exact hbad
      · right
        intro r hr heq
        exact hc ⟨r, hr, heq.symm⟩
    · intro c hc hnc hflag heq
      have hm := (processGroups_master flags insFail (buildGroups (selectUnsynced store))
        { store := store, created := 0, already_synced := 0, insTick := 0 }).2.1
      obtain ⟨new, hcheq, horig⟩ := hm
      rw [hcheq] at hc
      rcases List.mem_append.1 hc with hc2 | hc2
      · exact hnc hc2
      · obtain ⟨g, hg, hbadf, r, hr, hlog⟩ := horig c hc2
        rw [hflag] at hlog
        simp only [if_pos] at hlog
        rw [heq] at hlog
        injection hlog with hlname
        have hrrows := buildGroups_sound _ g hg r hr
        obtain ⟨l2, hl2, p2, hp2, -, rfl⟩ := (mem_selectUnsynced store r).1 hrrows
        have hlname2 : l2.name = l.name := by
          simpa [rowOf] using hlname.symm
        have hll : l2 = l :=
          List.inj_on_of_nodup_map hwf.2 hl2 hl hlname2
        have hkey := buildGroups_keys _ g hg _ hr
        have hemp : g.1.1 = l2.employee_no := by
          rw [← hkey]
          rfl
        have hbadf2 : badEmpNoB store.employees g.1.1 = false := hbadf
        rw [hemp, hll, hbad] at hbadf2
        cases hbadf2

/-- C7 witness: the unknown-employee log and the inactive-employee log of
`c7Store` keep all their punches untouched and acquire no checkin. -/
theorem C7_unresolved_group_skipped_witness :
    WfR c7Store ∧ (c7Store.logs.get ⟨0, by decide⟩) ∈ c7Store.logs ∧
    badEmpNoB c7Store.employees (c7Store.logs.get ⟨0, by decide⟩).employee_no = true ∧
    (∀ p ∈ (c7Store.logs.get ⟨0, by decide⟩).punch_table,
      findPunch (rState (sync_punches_to_employee_checkin exFlags noFail c7Store)).store p.name =
        findPunch c7Store p.name) := by
  refine ⟨by decide, by decide, by decide, ?_⟩
  exact (C7_unresolved_group_skipped exFlags noFail c7Store _ (by decide) (by decide)
    (by decide)).1

theorem forall₂_mem_left {α β : Type} {R : α → β → Prop} :
    ∀ {as : List α} {bs : List β}, List.Forall₂ R as bs → ∀ a ∈ as, ∃ b ∈ bs, R a b := by
  intro as bs h
  induction h with
  | nil => intro a ha; cases ha
  | cons hab htl ih =>
    intro a ha
    rcases List.mem_cons.1 ha with rfl | ha
    · exact ⟨_, List.mem_cons_self _ _, hab⟩
    · obtain ⟨b, hb, hR⟩ := ih a ha
      exact ⟨b, List.mem_cons_of_mem _ hb, hR⟩

theorem punchCorr_map_names :
    ∀ {ps1 ps : List BPunch}, List.Forall₂ PunchCorr ps1 ps →
      ps1.map (fun p => p.name) = ps.map (fun p => p.name) := by
  intro ps1 ps h
  induction h with
  | nil => rfl
  | cons hpq hptl ihp =>
    simp only [List.map_cons]
    rw [ihp, hpq.1]

theorem punchNames_forall₂ :
    ∀ {ls1 ls : List BLog}, List.Forall₂ LogCorr ls1 ls → punchNames ls1 = punchNames ls := by
  intro ls1 ls h
  induction h with
  | nil => rfl
  | cons hab htl ih =>
    unfold punchNames at ih ⊢
    simp only [List.flatMap_cons]
    rw [ih, punchCorr_map_names hab.2.2.2.2]

theorem findPunch_sound (store : RStore) (q : Nat) (p : BPunch)
    (h : findPunch store q = some p) :
    ∃ l ∈ store.logs, p ∈ l.punch_table ∧ p.name = q := by
  unfold findPunch at h
  obtain ⟨l, hl, hf⟩ := List.exists_of_findSome?_eq_some h
  refine ⟨l, hl, List.mem_of_find?_eq_some hf, ?_⟩
  have := List.find?_some hf
  simpa using this

theorem badEmpNoB_false_elim (employees : List EmployeeRec) (emp_no : String)
    (h : badEmpNoB employees emp_no = false) :
    emp_no ≠ "" ∧ ∃ e, employees.find? (fun x => x.attendance_device_id = emp_no) = some e ∧
      e.status = "Active" := by
  unfold badEmpNoB at h
  cases hf : employees.find? (fun x => x.attendance_device_id = emp_no) with
  | none =>
    rw [hf] at h
    simp at h
  | some e =>
    rw [hf] at h
    simp only [Bool.or_eq_false_iff, beq_eq_false_iff_ne, decide_eq_false_iff_not,
      Decidable.not_not] at h
    exact ⟨h.1, e, rfl, h.2⟩

theorem sync_evolves (flags : RFlags) (insFail : Nat → Bool) (store : RStore) :
    StoreEvolves (rState (sync_punches_to_employee_checkin flags insFail store)).store store := by
  unfold sync_punches_to_employee_checkin
  by_cases hrows : (selectUnsynced store).isEmpty
  · rw [if_pos hrows]
    exact storeEvolves_refl _
  · rw [if_neg hrows]
    exact (processGroups_master flags insFail _
      { store := store, created := 0, already_synced := 0, insTick := 0 }).1

theorem sync_ok_marks (flags : RFlags) (insFail : Nat → Bool) (store : RStore) (st1 : RState)
    (hok : sync_punches_to_employee_checkin flags insFail store = .ok st1) :
    ∀ r ∈ selectUnsynced store, badEmpNoB store.employees r.employee_no = false →
      syncedTrue st1.store r.punch_name := by
  intro r hr hgood
  unfold sync_punches_to_employee_checkin at hok
  by_cases hrows : (selectUnsynced store).isEmpty
  · rw [List.isEmpty_iff] at hrows
    rw [hrows] at hr
    cases hr
  · rw [if_neg hrows] at hok
    obtain ⟨g, hg, hrg⟩ := buildGroups_complete _ r hr
    obtain ⟨gs1, gs2, hsplit⟩ := List.append_of_mem hg
    rw [hsplit] at hok
    obtain ⟨sta, stb, hpref, hgok, hsuf⟩ :=
      processGroups_ok_prefix flags insFail gs1 g gs2 _ _ hok
    have hkey := buildGroups_keys _ g hg _ hrg
    have hprefm := processGroups_master flags insFail gs1
      { store := store, created := 0, already_synced := 0, insTick := 0 }
    rw [hpref] at hprefm
    have hevpre : StoreEvolves sta.store store := hprefm.1
    have hempeq : sta.store.employees = store.employees := hevpre.1
    obtain ⟨hne, e, hfe, hact⟩ := badEmpNoB_false_elim store.employees r.employee_no hgood
    have h1 : ¬g.1.1 = "" := by
      rw [← hkey]
      exact hne
    have hf2 : sta.store.employees.find? (fun x => x.attendance_device_id = g.1.1) =
        some e := by
      rw [hempeq, ← hkey]
      exact hfe
    obtain ⟨l, hl, p, hp, -, rfl⟩ := (mem_selectUnsynced store r).1 hr
    have hexist : ∃ q, findPunch store (rowOf l p).punch_name = some q :=
      findPunch_isSome_of_mem store l p hl hp
    have hexist2 : ∃ q, findPunch sta.store (rowOf l p).punch_name = some q :=
      findPunch_exists_evolves hevpre _ hexist
    have hmarks := processGroup_good_marks flags insFail sta g e stb h1 hf2 hact hgok
      (rowOf l p) hrg hexist2
    have hsufm := processGroups_master flags insFail gs2 stb
    rw [hsuf] at hsufm
    exact syncedTrue_evolves hsufm.1 _ hmarks

theorem processGroups_all_bad (flags : RFlags) (insFail : Nat → Bool) :
    ∀ (gs : List ((String × String) × List Row)) (st : RState),
      (∀ g ∈ gs, badEmpNoB st.store.employees g.1.1 = true) →
      processGroups flags insFail st gs = .ok st
  | [], _, _ => rfl
  | g :: gs, st, h => by
    have hrun : processGroup flags insFail st g = .ok st :=
      processGroup_bad flags insFail st g (h g (List.mem_cons_self _ _))
    rw [show processGroups flags insFail st (g :: gs) =
        processGroups flags insFail st gs from by simp only [processGroups, hrun]]
    exact processGroups_all_bad flags insFail gs st
      (fun g2 hg2 => h g2 (List.mem_cons_of_mem _ hg2))

theorem sync_all_bad (flags : RFlags) (insFail : Nat → Bool) (store : RStore)
    (hallbad : ∀ r ∈ selectUnsynced store,
      badEmpNoB store.employees r.employee_no = true) :
    sync_punches_to_employee_checkin flags insFail store =
      .ok { store := store, created := 0, already_synced := 0, insTick := 0 } := by
  unfold sync_punches_to_employee_checkin
  by_cases hrows : (selectUnsynced store).isEmpty
  · rw [if_pos hrows]
  · rw [if_neg hrows]
    apply processGroups_all_bad
    intro g hg
    obtain ⟨r, hrg⟩ := List.exists_mem_of_ne_nil _ (buildGroups_nonempty _ g hg)
    have hkey := buildGroups_keys _ g hg _ hrg
    have hrrows := buildGroups_sound _ g hg r hrg
    have := hallbad r hrrows
    show badEmpNoB store.employees g.1.1 = true
    rw [← hkey]
    exact this

theorem sync_ok_unsynced_bad (flags : RFlags) (insFail : Nat → Bool) (store : RStore)
    (st1 : RState) (hwf : WfR store)
    (hok : sync_punches_to_employee_checkin flags insFail store = .ok st1) :
    ∀ l1 ∈ st1.store.logs, ∀ p1 ∈ l1.punch_table,
      p1.synced_to_employee_checkin = false →
      badEmpNoB st1.store.employees l1.employee_no = true := by
  intro l1 hl1 p1 hp1 hsync
  by_contra hbadf
  rw [Bool.not_eq_true, ← Bool.not_eq_true] at hbadf
  rw [Bool.not_eq_true] at hbadf
  have hev : StoreEvolves st1.store store := by
    have := sync_evolves flags insFail store
    rwa [hok] at this
  have hempeq : st1.store.employees = store.employees := hev.1
  obtain ⟨l, hl, hcorr⟩ := forall₂_mem_left hev.2.1 l1 hl1
  obtain ⟨p, hp, hpcorr⟩ := forall₂_mem_left hcorr.2.2.2.2 p1 hp1
  have hpunsync : p.synced_to_employee_checkin = false := by
    cases hps : p.synced_to_employee_checkin
    · rfl
    · rw [hpcorr.2.2.2.2 hps] at hsync
      cases hsync
  have hrmem : rowOf l p ∈ selectUnsynced store :=
    (mem_selectUnsynced store (rowOf l p)).2 ⟨l, hl, p, hp, hpunsync, rfl⟩
  have hgood : badEmpNoB store.employees (rowOf l p).employee_no = false := by
    show badEmpNoB store.employees l.employee_no = false
    rw [← hcorr.2.1, ← hempeq]
    exact hbadf
  have hmark := sync_ok_marks flags insFail store st1 hok _ hrmem hgood
  obtain ⟨q, hfq, hqs⟩ := hmark
  obtain ⟨lq, hlq, hpq, hqname⟩ := findPunch_sound st1.store _ q hfq
  have hwf1 : (punchNames st1.store.logs).Nodup := by
    rw [punchNames_forall₂ hev.2.1]
    exact hwf.1
  have hname2 : q.name = p1.name := by
    rw [hqname]
    show (rowOf l p).punch_name = p1.name
    show p.name = p1.name
    exact hpcorr.1.symm
  obtain ⟨-, rfl⟩ := punchNames_unique st1.store hwf1 hlq hpq hl1 hp1 hname2
  rw [hqs] at hsync
  cases hsync

/-- C1 (amended): immediately re-running the reducer after a completed run
returns `created = 0` and `already_synced = 0`, because the first run marks
every punch it converts (and every punch of every group it processes with a
resolvable active employee) as synced, and the unsynced query then excludes
them; punches left unsynced all belong to unresolvable groups, which the
second run skips without touching a counter. -/
theorem C1_idempotent_second_run (flags flags2 : RFlags) (insFail insFail2 : Nat → Bool)
    (store : RStore) (st1 : RState) (hwf : WfR store)
    (h1 : sync_punches_to_employee_checkin flags insFail store = .ok st1) :
    sync_punches_to_employee_checkin flags2 insFail2 st1.store =
      .ok { store := st1.store, created := 0, already_synced := 0, insTick := 0 } := by
  apply sync_all_bad
  intro r hr
  obtain ⟨l1, hl1, p1, hp1, hsync, rfl⟩ := (mem_selectUnsynced st1.store r).1 hr
  exact sync_ok_unsynced_bad flags insFail store st1 hwf h1 l1 hl1 p1 hp1 hsync

set_option maxRecDepth 40000 in
/-- Witness: on the concrete store `c1Store` the first run succeeds, and the
second run over its result store returns zero counters. -/
theorem C1_idempotent_second_run_witness :
    sync_punches_to_employee_checkin exFlags noFail
        (rState (sync_punches_to_employee_checkin exFlags noFail c1Store)).store =
      .ok { store := (rState (sync_punches_to_employee_checkin exFlags noFail c1Store)).store,
            created := 0, already_synced := 0, insTick := 0 } :=
  C1_idempotent_second_run exFlags exFlags noFail noFail c1Store
    (rState (sync_punches_to_employee_checkin exFlags noFail c1Store))
    (by decide) (by decide)

/-- C10: a checkin-insert failure aborts the whole reducer invocation: the
exception propagates out of `sync_punches_to_employee_checkin` (so the wrapped
call returns the thrown error rather than a `(created, already_synced)`
result), the run decomposes into a prefix of completed groups, the failing
group, and a suffix of groups that were never processed, and every punch not
belonging to the completed prefix or the failing group is left exactly as it
was in the starting store. -/
theorem C10_insert_failure_aborts (flags : RFlags) (insFail : Nat → Bool) (store : RStore)
    (st' : RState) (e : RErr)
    (herr : sync_punches_to_employee_checkin flags insFail store = .err st' e) :
    sync_to_employee_checkin_only flags insFail store =
      .error "Error syncing to Employee Checkin" ∧
    ∃ gs1 g gs2 st0,
      buildGroups (selectUnsynced store) = gs1 ++ g :: gs2 ∧
      processGroups flags insFail
        { store := store, created := 0, already_synced := 0, insTick := 0 } gs1 = .ok st0 ∧
      processGroup flags insFail st0 g = .err st' e ∧
      ∀ q, (∀ g2 ∈ gs1, ∀ r ∈ g2.2, q ≠ r.punch_name) → (∀ r ∈ g.2, q ≠ r.punch_name) →
        findPunch st'.store q = findPunch store q := by
  constructor
  · unfold sync_to_employee_checkin_only
    rw [herr]
  · unfold sync_punches_to_employee_checkin at herr
    by_cases hrows : (selectUnsynced store).isEmpty
    · rw [if_pos hrows] at herr
      cases herr
    · rw [if_neg hrows] at herr
      obtain ⟨gs1, g, gs2, st0, hsplit, hpref, hgerr⟩ :=
        processGroups_err_split flags insFail _ _ _ _ herr
      refine ⟨gs1, g, gs2, st0, hsplit, hpref, hgerr, ?_⟩
      intro q hq1 hq2
      have hm1 := (processGroups_master flags insFail gs1
        { store := store, created := 0, already_synced := 0, insTick := 0 }).2.2.1 q hq1
      rw [hpref] at hm1
      have hm2 := (processGroup_master flags insFail st0 g).2.2.1 q hq2
      rw [hgerr] at hm2
      exact hm2.trans hm1

set_option maxRecDepth 40000 in
/-- Witness: on `c10Store` with an oracle that fails the first checkin insert,
the reducer raises `insertFailed` and the wrapped call returns the thrown
error. -/
theorem C10_insert_failure_aborts_witness :
    sync_to_employee_checkin_only exFlags failFirst c10Store =
      .error "Error syncing to Employee Checkin" ∧
    ∃ gs1 g gs2 st0,
      buildGroups (selectUnsynced c10Store) = gs1 ++ g :: gs2 ∧
      processGroups exFlags failFirst
        { store := c10Store, created := 0, already_synced := 0, insTick := 0 } gs1 = .ok st0 ∧
      processGroup exFlags failFirst st0 g =
        .err { store := c10Store, created := 0, already_synced := 0, insTick := 1 }
          RErr.insertFailed ∧
      ∀ q, (∀ g2 ∈ gs1, ∀ r ∈ g2.2, q ≠ r.punch_name) → (∀ r ∈ g.2, q ≠ r.punch_name) →
        findPunch
          ({ store := c10Store, created := 0, already_synced := 0, insTick := 1 } : RState).store
          q = findPunch c10Store q :=
  C10_insert_failure_aborts exFlags failFirst c10Store
    { store := c10Store, created := 0, already_synced := 0, insTick := 1 }
    RErr.insertFailed (by decide)

theorem pySortRows_nonzero (rows : List Row) (hnz : ∀ r ∈ rows, r.punch_time ≠ 0) :
    pySortRows rows = some (List.insertionSort timeLe rows) := by
  unfold pySortRows
  cases rows with
  | nil => rfl
  | cons a tl =>
    cases tl with
    | nil => rfl
    | cons b tl2 =>
      rw [if_neg (by simp), if_pos ?_]
      rw [List.all_eq_true]
      intro r hr
      simpa using hnz r hr

theorem sorted_le_getLastD :
    ∀ (l : List Row) (d : Row), List.Sorted timeLe l →
      ∀ r ∈ l, r.punch_time ≤ (l.getLastD d).punch_time
  | [], _, _, r, hr => absurd hr (List.not_mem_nil r)
  | [x], _, _, r, hr => by
    simp only [List.mem_singleton] at hr
    subst hr
    simp
  | x :: y :: tl, d, hs, r, hr => by
    rw [List.getLastD_cons]
    rcases List.mem_cons.1 hr with heq | h2
    · rw [heq]
      have hm : (y :: tl).getLastD x ∈ y :: tl := by
        rw [List.getLastD_eq_getLast?]
        cases hli : (y :: tl).getLast? with
        | none => simp at hli
        | some z =>
          simp only [Option.getD_some]
          exact List.mem_of_getLast?_eq_some hli
      exact List.rel_of_sorted_cons hs _ hm
    · exact sorted_le_getLastD (y :: tl) y hs.of_cons r h2

theorem create_success (flags : RFlags) (insFail : Nat → Bool) (employee : String)
    (st : RState) (punch : Row) (lt : String)
    (hex : checkinExists st.store employee punch.event_date punch.punch_time = false)
    (hins : insFail st.insTick = false) :
    ∃ st1 c, create_checkin_for_punch flags insFail employee st punch lt = .ok st1 ∧
      st1.store.checkins = st.store.checkins ++ [c] ∧
      checkinSig c = (employee, punch.event_date, punch.punch_time, lt) ∧
      st1.created = st.created + 1 ∧ st1.already_synced = st.already_synced := by
  unfold create_checkin_for_punch
  rw [if_neg (by rw [hex]; exact Bool.false_ne_true),
      if_neg (by rw [hins]; exact Bool.false_ne_true)]
  exact ⟨_, _, rfl, rfl, rfl, rfl, rfl⟩

set_option maxRecDepth 100000 in
/-- C5, counterexample to the original claim: a group for a resolvable Active
employee containing a midnight punch (00:00:00) and a morning punch yields no
IN and no OUT checkin at all.  The zero time of day is falsy in Python, so
`sort(key=lambda x: x["punch_time"] or "")` mixes a `str` key with
`timedelta` keys and raises `TypeError`: the group's processing aborts the
whole run with the store unchanged and both counters still zero, refuting
"creates exactly one IN ... and exactly one OUT" for this group the claim
quantifies over. -/
theorem C5_counterexample :
    badEmpNoB c5MidStore.employees "7" = false ∧
    (selectUnsynced c5MidStore).map (fun r => r.punch_time) = [0, 28800] ∧
    processGroup exFlags noFail
        { store := c5MidStore, created := 0, already_synced := 0, insTick := 0 }
        (("7", "2024-01-02"), selectUnsynced c5MidStore) =
      .err { store := c5MidStore, created := 0, already_synced := 0, insTick := 0 }
        RErr.sortTypeError ∧
    sync_punches_to_employee_checkin exFlags noFail c5MidStore =
      .err { store := c5MidStore, created := 0, already_synced := 0, insTick := 0 }
        RErr.sortTypeError ∧
    (rState (sync_punches_to_employee_checkin exFlags noFail c5MidStore)).store.checkins =
      [] := by
  decide

/-- C5 (amended): a group with a resolvable Active employee whose punch times
are all nonzero (no midnight punch, so the Python sort keys are homogeneous
`timedelta`s and the sort succeeds) and pairwise distinct, with
pairwise-distinct punch row names and no colliding existing checkins, is
sorted by time of day and yields exactly one IN checkin from the earliest
punch plus, when the group has more than one punch, exactly one OUT checkin
from the latest punch; the counters advance accordingly, and every punch of
the group (middles included) ends up marked synced while producing no further
checkin.  A group mixing a midnight punch with a nonzero one instead raises
`TypeError` out of the sort and creates nothing. -/
theorem C5_group_first_in_last_out (flags : RFlags) (insFail : Nat → Bool) (st : RState)
    (g : (String × String) × List Row) (emp_row : EmployeeRec)
    (hne : g.2 ≠ [])
    (h1 : ¬g.1.1 = "")
    (hf : st.store.employees.find? (fun e => e.attendance_device_id = g.1.1) = some emp_row)
    (hact : emp_row.status = "Active")
    (hnz : ∀ r ∈ g.2, r.punch_time ≠ 0)
    (hnames : (g.2.map (fun r => r.punch_name)).Nodup)
    (htimes : (g.2.map (fun r => r.punch_time)).Nodup)
    (hnc : ∀ r ∈ g.2, checkinExists st.store emp_row.name r.event_date r.punch_time = false)
    (hins : ∀ i, insFail i = false)
    (hexist : ∀ r ∈ g.2, (findPunch st.store r.punch_name).isSome = true) :
    ∃ st' rf rl, processGroup flags insFail st g = .ok st' ∧
      rf ∈ g.2 ∧ rl ∈ g.2 ∧
      (∀ r ∈ g.2, rf.punch_time ≤ r.punch_time) ∧
      (∀ r ∈ g.2, r.punch_time ≤ rl.punch_time) ∧
      st'.created = st.created + (if g.2.length = 1 then 1 else 2) ∧
      st'.already_synced = st.already_synced ∧
      st'.store.checkins.map checkinSig = st.store.checkins.map checkinSig ++
        (if g.2.length = 1 then [(emp_row.name, rf.event_date, rf.punch_time, "IN")]
         else [(emp_row.name, rf.event_date, rf.punch_time, "IN"),
               (emp_row.name, rl.event_date, rl.punch_time, "OUT")]) ∧
      (∀ r ∈ g.2, syncedTrue st'.store r.punch_name) := by
  have hsort : pySortRows g.2 = some (List.insertionSort timeLe g.2) :=
    pySortRows_nonzero g.2 hnz
  have hperm : List.Perm (List.insertionSort timeLe g.2) g.2 := List.perm_insertionSort _ _
  have hsorted : List.Sorted timeLe (List.insertionSort timeLe g.2) :=
    List.sorted_insertionSort _ _
  cases hsrt : List.insertionSort timeLe g.2 with
  | nil =>
    rw [hsrt] at hperm
    exact absurd hperm.symm.eq_nil hne
  | cons first rest =>
  rw [hsrt] at hperm hsorted hsort
  have hfmem : first ∈ g.2 := hperm.mem_iff.1 (List.mem_cons_self _ _)
  have hfle : ∀ r ∈ g.2, first.punch_time ≤ r.punch_time := by
    intro r hr
    rcases List.mem_cons.1 (hperm.mem_iff.2 hr) with heq | h2
    · rw [heq]
    · exact List.rel_of_sorted_cons hsorted r h2
  have hlastg : (first :: rest).getLastD first ∈ g.2 := by
    apply hperm.mem_iff.1
    rw [List.getLastD_eq_getLast?]
    cases hli : (first :: rest).getLast? with
    | none => simp at hli
    | some x =>
      simp only [Option.getD_some]
      exact List.mem_of_getLast?_eq_some hli
  have hlle : ∀ r ∈ g.2, r.punch_time ≤ ((first :: rest).getLastD first).punch_time := by
    intro r hr
    exact sorted_le_getLastD (first :: rest) first hsorted r (hperm.mem_iff.2 hr)
  cases rest with
  | nil =>
    have hlen1 : g.2.length = 1 := by
      have hl := hperm.length_eq
      simpa using hl.symm
    obtain ⟨st1, c, heq1, hch1, hsig1, hcr1, has1⟩ :=
      create_success flags insFail emp_row.name st first "IN" (hnc first hfmem) (hins _)
    have hrun : processGroup flags insFail st g = .ok st1 := by
      simp [processGroup, h1, hf, hact, hsort, heq1]
    have hmarks := processGroup_good_marks flags insFail st g emp_row st1 h1 hf hact hrun
    refine ⟨st1, first, first, hrun, hfmem, hfmem, hfle, ?_, ?_, has1, ?_, ?_⟩
    · intro r hr
      exact hlle r hr
    · rw [if_pos hlen1]
      exact hcr1
    · rw [if_pos hlen1, hch1, List.map_append]
      simp [hsig1]
    · intro r hr
      exact hmarks r hr (Option.isSome_iff_exists.mp (hexist r hr))
  | cons b tl =>
    have hlen2 : ¬g.2.length = 1 := by
      have hl := hperm.length_eq
      simp only [List.length_cons] at hl
      omega
    have hnodL : ((first :: b :: tl).map (fun r => r.punch_name)).Nodup :=
      ((hperm.map (fun r => r.punch_name)).nodup_iff).2 hnames
    have hnodT : ((first :: b :: tl).map (fun r => r.punch_time)).Nodup :=
      ((hperm.map (fun r => r.punch_time)).nodup_iff).2 htimes
    rw [List.map_cons] at hnodL hnodT
    have hglr : (first :: b :: tl).getLastD first ∈ b :: tl := by
      rw [List.getLastD_cons, List.getLastD_eq_getLast?]
      cases hli : (b :: tl).getLast? with
      | none => simp at hli
      | some z =>
        simp only [Option.getD_some]
        exact List.mem_of_getLast?_eq_some hli
    have hnamedif : ¬((first :: b :: tl).getLastD first).punch_name = first.punch_name := by
      intro hcontra
      have hmm : ((first :: b :: tl).getLastD first).punch_name ∈
          (b :: tl).map (fun r => r.punch_name) := List.mem_map_of_mem _ hglr
      rw [hcontra] at hmm
      exact (List.nodup_cons.1 hnodL).1 hmm
    have htimedif : ¬first.punch_time = ((first :: b :: tl).getLastD first).punch_time := by
      intro hcontra
      have hmm : ((first :: b :: tl).getLastD first).punch_time ∈
          (b :: tl).map (fun r => r.punch_time) := List.mem_map_of_mem _ hglr
      rw [← hcontra] at hmm
      exact (List.nodup_cons.1 hnodT).1 hmm
    obtain ⟨st1, cIN, heq1, hch1, hsig1, hcr1, has1⟩ :=
      create_success flags insFail emp_row.name st first "IN" (hnc first hfmem) (hins _)
    have hsigc := hsig1
    simp only [checkinSig, Prod.mk.injEq] at hsigc
    have hgl : (first :: b :: tl).getLastD first = (b :: tl).getLast?.getD first := by
      rw [List.getLastD_cons, List.getLastD_eq_getLast?]
    have htimedif2 : ¬first.punch_time = ((b :: tl).getLast?.getD first).punch_time :=
      hgl ▸ htimedif
    have hex2 : checkinExists st1.store emp_row.name
        ((first :: b :: tl).getLastD first).event_date
        ((first :: b :: tl).getLastD first).punch_time = false := by
      have hold := hnc _ hlastg
      unfold checkinExists at hold ⊢
      rw [hch1, List.any_append, hold]
      simp [hsigc.2.2.1, htimedif2]
    obtain ⟨st2, cOUT, heq2, hch2, hsig2, hcr2, has2⟩ :=
      create_success flags insFail emp_row.name st1 ((first :: b :: tl).getLastD first) "OUT"
        hex2 (hins _)
    have hlf2 : ¬((b :: tl).getLast?.getD first).punch_name = first.punch_name :=
      hgl ▸ hnamedif
    have heq2b := heq2
    rw [hgl] at heq2b
    have hrun : processGroup flags insFail st g =
        RRes.ok (((first :: b :: tl).filter (fun p =>
          ¬(p.punch_name = first.punch_name ∨
            p.punch_name = ((first :: b :: tl).getLastD first).punch_name))).foldl
          (fun s p => { s with store := updatePunch s.store p.punch_name setSynced }) st2) := by
      simp [processGroup, h1, hf, hact, hsort, heq1, hlf2, heq2b]
    have hmarks := processGroup_good_marks flags insFail st g emp_row _ h1 hf hact hrun
    have hfc := foldMark_counters ((first :: b :: tl).filter (fun p =>
      ¬(p.punch_name = first.punch_name ∨
        p.punch_name = ((first :: b :: tl).getLastD first).punch_name))) st2
    have hfch := foldMark_checkins ((first :: b :: tl).filter (fun p =>
      ¬(p.punch_name = first.punch_name ∨
        p.punch_name = ((first :: b :: tl).getLastD first).punch_name))) st2
    refine ⟨_, first, (first :: b :: tl).getLastD first, hrun, hfmem, hlastg, hfle, hlle,
      ?_, ?_, ?_, ?_⟩
    · rw [hfc.1, hcr2, hcr1, if_neg hlen2]
    · rw [hfc.2, has2, has1]
    · rw [if_neg hlen2, hfch, hch2, hch1, List.map_append, List.map_append]
      simp [hsig1, hsig2]
    · intro r hr
      exact hmarks r hr (Option.isSome_iff_exists.mp (hexist r hr))

set_option maxRecDepth 40000 in
/-- Witness: the group of `c5Store`'s four punches (08:00, 12:00, 13:00,
17:30) yields exactly an IN from the earliest and an OUT from the latest. -/
theorem C5_group_first_in_last_out_witness :
    ∃ st' rf rl, processGroup exFlags noFail
        { store := c5Store, created := 0, already_synced := 0, insTick := 0 }
        (("7", "2024-01-02"), selectUnsynced c5Store) = .ok st' ∧
      rf ∈ selectUnsynced c5Store ∧ rl ∈ selectUnsynced c5Store ∧
      (∀ r ∈ selectUnsynced c5Store, rf.punch_time ≤ r.punch_time) ∧
      (∀ r ∈ selectUnsynced c5Store, r.punch_time ≤ rl.punch_time) ∧
      st'.created = 0 + (if (selectUnsynced c5Store).length = 1 then 1 else 2) ∧
      st'.already_synced = 0 ∧
      st'.store.checkins.map checkinSig = c5Store.checkins.map checkinSig ++
        (if (selectUnsynced c5Store).length = 1
         then [(exEmployee.name, rf.event_date, rf.punch_time, "IN")]
         else [(exEmployee.name, rf.event_date, rf.punch_time, "IN"),
               (exEmployee.name, rl.event_date, rl.punch_time, "OUT")]) ∧
      (∀ r ∈ selectUnsynced c5Store, syncedTrue st'.store r.punch_name) :=
  C5_group_first_in_last_out exFlags noFail
    { store := c5Store, created := 0, already_synced := 0, insTick := 0 }
    (("7", "2024-01-02"), selectUnsynced c5Store) exEmployee
    (by decide) (by decide) (by decide) (by decide) (by decide) (by decide) (by decide)
    (by decide) (fun i => rfl) (by decide)

theorem succCount_succ (failAt : Nat → Bool) (t : Nat) :
    succCount failAt (t + 1) = succCount failAt t + (if failAt t then 0 else 1) := by
  unfold succCount
  rw [List.range_succ, List.filter_append, List.length_append]
  cases hf : failAt t <;> simp [hf]

theorem failCount_succ (failAt : Nat → Bool) (t : Nat) :
    failCount failAt (t + 1) = failCount failAt t + (if failAt t then 1 else 0) := by
  unfold failCount
  rw [List.range_succ, List.filter_append, List.length_append]
  cases hf : failAt t <;> simp [hf]

theorem punchCount_append (ls ms : List BLog) :
    punchCount (ls ++ ms) = punchCount ls + punchCount ms := by
  unfold punchCount
  rw [List.map_append, List.sum_append]


theorem punchCount_replaceLog (emp date : String) (doc : BLog) :
    ∀ (ls : List BLog) (l : BLog),
      ls.find? (fun x => decide (x.employee_no = emp) && decide (x.event_date = date)) =
        some l →
      punchCount (replaceLog emp date doc ls) + l.punch_table.length =
        punchCount ls + doc.punch_table.length
  | [], l, hfind => by cases hfind
  | x :: ls, l, hfind => by
    by_cases hx : x.employee_no = emp ∧ x.event_date = date
    · have hxb : (decide (x.employee_no = emp) && decide (x.event_date = date)) = true := by
        rw [← Bool.decide_and]
        exact decide_eq_true hx
      simp only [List.find?, hxb, Option.some.injEq] at hfind
      subst hfind
      have hrl : replaceLog emp date doc (x :: ls) = doc :: ls := by
        simp only [replaceLog]
        rw [if_pos hx]
      rw [hrl]
      unfold punchCount
      simp only [List.map_cons, List.sum_cons]
      omega
    · have hxb : (decide (x.employee_no = emp) && decide (x.event_date = date)) = false := by
        rw [← Bool.decide_and]
        exact decide_eq_false hx
      simp only [List.find?, hxb] at hfind
      have hrl : replaceLog emp date doc (x :: ls) = x :: replaceLog emp date doc ls := by
        simp only [replaceLog]
        rw [if_neg hx]
      rw [hrl]
      have ih := punchCount_replaceLog emp date doc ls l hfind
      unfold punchCount at ih ⊢
      simp only [List.map_cons, List.sum_cons]
      omega

theorem punchCount_replaceLog_push (emp date : String) (l : BLog) (pb : BPunch)
    (dv : Option String) (ls : List BLog)
    (hfind : ls.find? (fun x => decide (x.employee_no = emp) && decide (x.event_date = date)) =
      some l) :
    punchCount (replaceLog emp date
      { l with device_id := dv, punch_table := l.punch_table ++ [pb] } ls) =
      punchCount ls + 1 := by
  have h := punchCount_replaceLog emp date
    { l with device_id := dv, punch_table := l.punch_table ++ [pb] } ls l hfind
  simp only [List.length_append, List.length_singleton] at h
  omega

theorem processEvent_counters (ip : String) (flags : IFlags) (failAt : Nat → Bool)
    (s : ISt) (ev : AcsEvent) (s1 : ISt)
    (h : processEvent ip flags failAt s ev = .ok s1) :
    s1.count + punchCount s.logs = s.count + punchCount s1.logs ∧
    s1.count + succCount failAt s.tick = s.count + succCount failAt s1.tick ∧
    s1.count + s1.skipped + failCount failAt s1.tick =
      s.count + s.skipped + failCount failAt s.tick +
        (if ev.employeeNoString = "" ∨ ev.time = "" then 0 else 1) := by
  by_cases hskip : ev.employeeNoString = "" ∨ ev.time = ""
  · have hrun : processEvent ip flags failAt s ev = .ok s := by
      simp [processEvent, hskip]
    rw [hrun] at h
    injection h with h
    subst h
    exact ⟨rfl, rfl, by simp [hskip]⟩
  · cases hparse : parseDeviceTime ev.time with
    | none =>
      have hrun : processEvent ip flags failAt s ev = .err s .strptimeValueError := by
        simp [processEvent, hskip, hparse]
      rw [hrun] at h
      cases h
    | some dt =>
    obtain ⟨date, tod⟩ := dt
    cases hfound : s.logs.find?
        (fun l => decide (l.employee_no = ev.employeeNoString) && decide (l.event_date = date))
        with
    | some l =>
      by_cases hdup : (l.punch_table.any fun p => p.punch_time = tod) = true
      · have hrun : processEvent ip flags failAt s ev =
            .ok { s with skipped := s.skipped + 1 } := by
          simp [processEvent, hskip, hparse, hfound, hdup]
        rw [hrun] at h
        injection h with h
        subst h
        refine ⟨rfl, rfl, ?_⟩
        rw [if_neg hskip]
        show s.count + (s.skipped + 1) + failCount failAt s.tick = _
        omega
      · rw [Bool.not_eq_true] at hdup
        by_cases hfailc : failAt s.tick = true
        · have hrun : processEvent ip flags failAt s ev =
              .ok { s with tick := s.tick + 1 } := by
            simp [processEvent, hskip, hparse, hfound, hdup, hfailc]
          rw [hrun] at h
          injection h with h
          subst h
          refine ⟨rfl, ?_, ?_⟩
          · show s.count + succCount failAt s.tick = s.count + succCount failAt (s.tick + 1)
            rw [succCount_succ, if_pos hfailc]
            omega
          · show s.count + s.skipped + failCount failAt (s.tick + 1) = _
            rw [failCount_succ, if_pos hfailc, if_neg hskip]
            omega
        · rw [Bool.not_eq_true] at hfailc
          simp [processEvent, hskip, hparse, hfound, hdup, hfailc] at h
          subst h
          dsimp only
          refine ⟨?_, ?_, ?_⟩
          · rw [punchCount_replaceLog_push ev.employeeNoString date l _ _ s.logs hfound]
            omega
          · rw [succCount_succ, if_neg (by rw [hfailc]; exact Bool.false_ne_true)]
            omega
          · rw [failCount_succ, if_neg (by rw [hfailc]; exact Bool.false_ne_true), if_neg hskip]
            omega
    | none =>
      by_cases hfailc : failAt s.tick = true
      · have hrun : processEvent ip flags failAt s ev =
            .ok { s with tick := s.tick + 1 } := by
          simp [processEvent, hskip, hparse, hfound, hfailc]
        rw [hrun] at h
        injection h with h
        subst h
        refine ⟨rfl, ?_, ?_⟩
        · show s.count + succCount failAt s.tick = s.count + succCount failAt (s.tick + 1)
          rw [succCount_succ, if_pos hfailc]
          omega
        · show s.count + s.skipped + failCount failAt (s.tick + 1) = _
          rw [failCount_succ, if_pos hfailc, if_neg hskip]
          omega
      · rw [Bool.not_eq_true] at hfailc
        simp [processEvent, hskip, hparse, hfound, hfailc] at h
        subst h
        dsimp only
        refine ⟨?_, ?_, ?_⟩
        · rw [punchCount_append]
          show s.count + 1 + punchCount s.logs = s.count + (punchCount s.logs + punchCount _)
          unfold punchCount
          simp only [List.map_cons, List.map_nil, List.sum_cons, List.sum_nil,
            List.length_singleton]
          omega
        · rw [succCount_succ, if_neg (by rw [hfailc]; exact Bool.false_ne_true)]
          omega
        · rw [failCount_succ, if_neg (by rw [hfailc]; exact Bool.false_ne_true), if_neg hskip]
          omega

theorem processEvents_counters (ip : String) (flags : IFlags) (failAt : Nat → Bool) :
    ∀ (evs : List AcsEvent) (s s1 : ISt),
      processEvents ip flags failAt s evs = .ok s1 →
      s1.count + punchCount s.logs = s.count + punchCount s1.logs ∧
      s1.count + succCount failAt s.tick = s.count + succCount failAt s1.tick ∧
      s1.count + s1.skipped + failCount failAt s1.tick =
        s.count + s.skipped + failCount failAt s.tick + nonSkippedCount evs
  | [], s, s1, h => by
    injection h with h
    subst h
    exact ⟨rfl, rfl, by simp [nonSkippedCount]⟩
  | ev :: evs, s, s1, h => by
    cases hstep : processEvent ip flags failAt s ev with
    | err s2 e =>
      rw [show processEvents ip flags failAt s (ev :: evs) = .err s2 e from by
        simp only [processEvents, hstep]] at h
      cases h
    | ok s2 =>
      rw [show processEvents ip flags failAt s (ev :: evs) =
          processEvents ip flags failAt s2 evs from by simp only [processEvents, hstep]] at h
      obtain ⟨h1a, h1b, h1c⟩ := processEvent_counters ip flags failAt s ev s2 hstep
      obtain ⟨h2a, h2b, h2c⟩ := processEvents_counters ip flags failAt evs s2 s1 h
      have hnsc : nonSkippedCount (ev :: evs) =
          nonSkippedCount evs + (if ev.employeeNoString = "" ∨ ev.time = "" then 0 else 1) := by
        unfold nonSkippedCount
        rw [List.countP_cons]
        by_cases hskip : ev.employeeNoString = "" ∨ ev.time = ""
        · rcases hskip with h | h <;> simp [h]
        · push_neg at hskip
          simp [hskip.1, hskip.2]
      refine ⟨?_, ?_, ?_⟩ <;> omega

theorem processEvents_append_ok (ip : String) (flags : IFlags) (failAt : Nat → Bool) :
    ∀ (l1 : List AcsEvent) (s s1 : ISt),
      processEvents ip flags failAt s l1 = .ok s1 →
      ∀ l2, processEvents ip flags failAt s (l1 ++ l2) = processEvents ip flags failAt s1 l2
  | [], s, s1, h, l2 => by
    injection h with h
    subst h
    rfl
  | ev :: l1, s, s1, h, l2 => by
    cases hstep : processEvent ip flags failAt s ev with
    | err s2 e =>
      rw [show processEvents ip flags failAt s (ev :: l1) = .err s2 e from by
        simp only [processEvents, hstep]] at h
      cases h
    | ok s2 =>
      rw [show processEvents ip flags failAt s (ev :: l1) =
          processEvents ip flags failAt s2 l1 from by simp only [processEvents, hstep]] at h
      show processEvents ip flags failAt s (ev :: (l1 ++ l2)) = _
      rw [show processEvents ip flags failAt s (ev :: (l1 ++ l2)) =
          processEvents ip flags failAt s2 (l1 ++ l2) from by simp only [processEvents, hstep]]
      exact processEvents_append_ok ip flags failAt l1 s2 s1 h l2

theorem processEvents_append_err (ip : String) (flags : IFlags) (failAt : Nat → Bool) :
    ∀ (l1 : List AcsEvent) (s s1 : ISt) (e : IErr),
      processEvents ip flags failAt s l1 = .err s1 e →
      ∀ l2, processEvents ip flags failAt s (l1 ++ l2) = .err s1 e
  | [], _, _, _, h, _ => by cases h
  | ev :: l1, s, s1, e, h, l2 => by
    cases hstep : processEvent ip flags failAt s ev with
    | err s2 e2 =>
      rw [show processEvents ip flags failAt s (ev :: l1) = .err s2 e2 from by
        simp only [processEvents, hstep]] at h
      injection h with ha hb
      subst ha
      subst hb
      show processEvents ip flags failAt s (ev :: (l1 ++ l2)) = _
      simp only [processEvents, hstep]
    | ok s2 =>
      rw [show processEvents ip flags failAt s (ev :: l1) =
          processEvents ip flags failAt s2 l1 from by simp only [processEvents, hstep]] at h
      show processEvents ip flags failAt s (ev :: (l1 ++ l2)) = _
      rw [show processEvents ip flags failAt s (ev :: (l1 ++ l2)) =
          processEvents ip flags failAt s2 (l1 ++ l2) from by simp only [processEvents, hstep]]
      exact processEvents_append_err ip flags failAt l1 s2 s1 e h l2

theorem drop_split_page (dev : Device) (position : Nat) :
    dev.events.drop position =
      fetchPage dev position batch_size ++ dev.events.drop (position + batch_size) := by
  unfold fetchPage
  conv_lhs => rw [← List.take_append_drop batch_size (dev.events.drop position)]
  congr 1
  rw [List.drop_drop, Nat.add_comm]

theorem syncLoop_eq_processEvents (ip : String) (flags : IFlags) (failAt : Nat → Bool)
    (dev : Device) :
    ∀ (fuel position : Nat) (s : ISt),
      dev.events.length - position < fuel →
      syncLoop ip flags failAt dev fuel position s =
        processEvents ip flags failAt s (dev.events.drop position)
  | 0, position, s, h => absurd h (Nat.not_lt_zero _)
  | fuel + 1, position, s, h => by
    by_cases hemp : fetchPage dev position batch_size = []
    · have hrun : syncLoop ip flags failAt dev (fuel + 1) position s = .ok s := by
        simp [syncLoop, hemp]
      rw [hrun]
      have hdrop : dev.events.drop position = [] := by
        unfold fetchPage at hemp
        cases hd : dev.events.drop position with
        | nil => rfl
        | cons a l =>
          rw [hd] at hemp
          simp [batch_size] at hemp
      rw [hdrop]
      rfl
    · have hb : batch_size = 30 := rfl
      have hl1 : (fetchPage dev position batch_size).length =
          min batch_size (dev.events.drop position).length := by
        unfold fetchPage
        rw [List.length_take]
      have hl2 : (dev.events.drop position).length = dev.events.length - position :=
        List.length_drop _ _
      cases hpe : processEvents ip flags failAt s (fetchPage dev position batch_size) with
      | err s1 e =>
        have hrun : syncLoop ip flags failAt dev (fuel + 1) position s = .err s1 e := by
          simp [syncLoop, hemp, hpe]
        rw [hrun, drop_split_page dev position]
        exact (processEvents_append_err ip flags failAt _ s s1 e hpe _).symm
      | ok s1 =>
        by_cases hlen : (fetchPage dev position batch_size).length < batch_size
        · have hrun : syncLoop ip flags failAt dev (fuel + 1) position s = .ok s1 := by
            simp [syncLoop, hemp, hpe, hlen]
          rw [hrun]
          have hdrop2 : dev.events.drop (position + batch_size) = [] := by
            apply List.drop_eq_nil_of_le
            rw [hl1, hl2] at hlen
            omega
          rw [drop_split_page dev position, hdrop2, List.append_nil]
          exact hpe.symm
        · have hlen30 : (fetchPage dev position batch_size).length = batch_size := by
            have hle : (fetchPage dev position batch_size).length ≤ batch_size := by
              unfold fetchPage
              exact List.length_take_le _ _
            omega
          have hrun : syncLoop ip flags failAt dev (fuel + 1) position s =
              syncLoop ip flags failAt dev fuel
                (position + (fetchPage dev position batch_size).length) s1 := by
            simp [syncLoop, hemp, hpe, hlen]
          have hrem : 30 ≤ dev.events.length - position := by
            rw [hl1, hl2] at hlen30
            omega
          rw [hrun, hlen30,
            syncLoop_eq_processEvents ip flags failAt dev fuel (position + batch_size) s1
              (by omega),
            drop_split_page dev position]
          exact (processEvents_append_ok ip flags failAt _ s s1 hpe _).symm

theorem pageSplit_sum :
    ∀ (fuel : Nat) (l : List AcsEvent), l.length < fuel →
      ((pageSplit fuel l).map List.length).sum = l.length
  | 0, l, h => absurd h (Nat.not_lt_zero _)
  | fuel + 1, l, h => by
    unfold pageSplit
    by_cases hl : l = []
    · rw [if_pos hl]
      simp [hl]
    · rw [if_neg hl]
      simp only [List.map_cons, List.sum_cons]
      have hlp : 0 < l.length := List.length_pos.mpr hl
      have hb : batch_size = 30 := rfl
      rw [pageSplit_sum fuel (l.drop batch_size) (by rw [List.length_drop]; omega)]
      rw [List.length_take, List.length_drop]
      omega

/-- C9: in a completed device-ingest run, an event whose `doc.save` raised is
counted in neither counter: `count` equals the number of save attempts the
persistence oracle let succeed (each successful save persists exactly one new
punch, so `count` is also the number of newly persisted punches), and every
event that is not skipped for a missing employee number or timestamp falls
into exactly one of `count`, `skipped`, or the failed saves. -/
theorem C9_failed_save_uncounted (label ip : String) (flags : IFlags) (failAt : Nat → Bool)
    (dev : Device) (nextId : Nat) (logs : List BLog) (s1 : ISt)
    (hok : syncForSingleDevice label ip flags failAt dev nextId logs = .ok s1) :
    s1.count = succCount failAt s1.tick ∧
    punchCount s1.logs = punchCount logs + s1.count ∧
    (0 < dev.totalMatches →
      s1.count + s1.skipped + failCount failAt s1.tick = nonSkippedCount dev.events) := by
  unfold syncForSingleDevice at hok
  by_cases h0 : dev.totalMatches = 0
  · rw [if_pos h0] at hok
    injection hok with hok
    subst hok
    refine ⟨rfl, by simp, fun hpos => absurd h0 (by omega)⟩
  · rw [if_neg h0] at hok
    by_cases h1500 : dev.totalMatches > 1500
    · rw [if_pos h1500] at hok
      cases hok
    · rw [if_neg h1500] at hok
      rw [syncLoop_eq_processEvents ip flags failAt dev _ 0 _ (by omega),
        List.drop_zero] at hok
      obtain ⟨ha, hb, hc⟩ := processEvents_counters ip flags failAt dev.events _ s1 hok
      dsimp only at ha hb hc
      have hs0 : succCount failAt 0 = 0 := rfl
      have hf0 : failCount failAt 0 = 0 := rfl
      exact ⟨by omega, by omega, fun _ => by omega⟩

set_option maxRecDepth 100000 in
/-- Witness: on `c9Device` with an oracle failing the first save, the run ends
with `count = 2`, `skipped = 0` and three save attempts; the failed first
event reached no counter. -/
theorem C9_failed_save_uncounted_witness :
    ({ logs := [{ name := 1, employee_no := "7", event_date := "2024-01-02",
                  device_id := some "10.0.0.1",
                  punch_table := [{ name := 0, punch_time := 32400, punch_type := "Auto",
                                    device_id := some "10.0.0.1",
                                    synced_to_employee_checkin := false,
                                    employee_checkin := none },
                                  { name := 2, punch_time := 28800, punch_type := "Auto",
                                    device_id := some "10.0.0.1",
                                    synced_to_employee_checkin := false,
                                    employee_checkin := none }] }],
       count := 2, skipped := 0, tick := 3, nextId := 4 } : ISt).count =
        succCount failFirst 3 ∧
    punchCount [{ name := 1, employee_no := "7", event_date := "2024-01-02",
                  device_id := some "10.0.0.1",
                  punch_table := [{ name := 0, punch_time := 32400, punch_type := "Auto",
                                    device_id := some "10.0.0.1",
                                    synced_to_employee_checkin := false,
                                    employee_checkin := none },
                                  { name := 2, punch_time := 28800, punch_type := "Auto",
                                    device_id := some "10.0.0.1",
                                    synced_to_employee_checkin := false,
                                    employee_checkin := none }] }] = punchCount [] + 2 ∧
    (0 < c9Device.totalMatches →
      2 + 0 + failCount failFirst 3 = nonSkippedCount c9Device.events) :=
  C9_failed_save_uncounted "L" "10.0.0.1" exIFlags failFirst c9Device 0 []
    { logs := [{ name := 1, employee_no := "7", event_date := "2024-01-02",
                 device_id := some "10.0.0.1",
                 punch_table := [{ name := 0, punch_time := 32400, punch_type := "Auto",
                                   device_id := some "10.0.0.1",
                                   synced_to_employee_checkin := false,
                                   employee_checkin := none },
                                 { name := 2, punch_time := 28800, punch_type := "Auto",
                                   device_id := some "10.0.0.1",
                                   synced_to_employee_checkin := false,
                                   employee_checkin := none }] }],
      count := 2, skipped := 0, tick := 3, nextId := 4 } (by decide)

theorem storeKeys_cons (l : BLog) (ls : List BLog) :
    storeKeys (l :: ls) =
      l.punch_table.map (fun p => (l.employee_no, l.event_date, p.punch_time)) ++
        storeKeys ls := by
  simp [storeKeys]

theorem storeKeys_append (ls ms : List BLog) :
    storeKeys (ls ++ ms) = storeKeys ls ++ storeKeys ms := by
  simp [storeKeys]

theorem mem_storeKeys_intro (logs : List BLog) (l : BLog) (p : BPunch)
    (hl : l ∈ logs) (hp : p ∈ l.punch_table) :
    (l.employee_no, l.event_date, p.punch_time) ∈ storeKeys logs := by
  unfold storeKeys
  rw [List.mem_flatMap]
  exact ⟨l, hl, List.mem_map_of_mem _ hp⟩

theorem storeKeys_replaceLog_mem (emp date : String) (doc : BLog) :
    ∀ (ls : List BLog) (l : BLog),
      ls.find? (fun x => decide (x.employee_no = emp) && decide (x.event_date = date)) =
        some l →
      (∀ k, k ∈ l.punch_table.map (fun p => (l.employee_no, l.event_date, p.punch_time)) →
        k ∈ doc.punch_table.map (fun p => (doc.employee_no, doc.event_date, p.punch_time))) →
      ∀ k, (k ∈ storeKeys (replaceLog emp date doc ls) ↔
        k ∈ doc.punch_table.map (fun p => (doc.employee_no, doc.event_date, p.punch_time)) ∨
        k ∈ storeKeys ls)
  | [], l, hfind, _, k => by cases hfind
  | x :: ls, l, hfind, hsub, k => by
    by_cases hx : x.employee_no = emp ∧ x.event_date = date
    · have hxb : (decide (x.employee_no = emp) && decide (x.event_date = date)) = true := by
        rw [← Bool.decide_and]
        exact decide_eq_true hx
      simp only [List.find?, hxb, Option.some.injEq] at hfind
      subst hfind
      have hrl : replaceLog emp date doc (x :: ls) = doc :: ls := by
        simp only [replaceLog]
        rw [if_pos hx]
      rw [hrl, storeKeys_cons, storeKeys_cons]
      simp only [List.mem_append]
      have hsk := hsub k
      tauto
    · have hxb : (decide (x.employee_no = emp) && decide (x.event_date = date)) = false := by
        rw [← Bool.decide_and]
        exact decide_eq_false hx
      simp only [List.find?, hxb] at hfind
      have hrl : replaceLog emp date doc (x :: ls) = x :: replaceLog emp date doc ls := by
        simp only [replaceLog]
        rw [if_neg hx]
      rw [hrl, storeKeys_cons, storeKeys_cons]
      simp only [List.mem_append]
      have ih := storeKeys_replaceLog_mem emp date doc ls l hfind hsub k
      tauto

theorem storeKeys_replaceLog_push (emp date : String) (l : BLog) (pb : BPunch)
    (dv : Option String) (ls : List BLog)
    (hfind : ls.find? (fun x => decide (x.employee_no = emp) && decide (x.event_date = date)) =
      some l) :
    ∀ k, k ∈ storeKeys (replaceLog emp date
        { l with device_id := dv, punch_table := l.punch_table ++ [pb] } ls) ↔
      (k = (l.employee_no, l.event_date, pb.punch_time) ∨ k ∈ storeKeys ls) := by
  have hsub : ∀ k2,
      k2 ∈ l.punch_table.map (fun p => (l.employee_no, l.event_date, p.punch_time)) →
      k2 ∈ (l.punch_table ++ [pb]).map (fun p => (l.employee_no, l.event_date, p.punch_time)) := by
    intro k2 hk2
    rw [List.map_append]
    exact List.mem_append_left _ hk2
  intro k
  rw [storeKeys_replaceLog_mem emp date
    { l with device_id := dv, punch_table := l.punch_table ++ [pb] } ls l hfind hsub k]
  constructor
  · rintro (hdk | hold)
    · have hdk2 : k ∈ (l.punch_table ++ [pb]).map
          (fun p => (l.employee_no, l.event_date, p.punch_time)) := hdk
      rw [List.map_append] at hdk2
      rcases List.mem_append.1 hdk2 with hlk | hk
      · right
        obtain ⟨p, hp, hkey⟩ := List.mem_map.1 hlk
        rw [← hkey]
        exact mem_storeKeys_intro ls l p (List.mem_of_find?_eq_some hfind) hp
      · left
        simp only [List.map_cons, List.map_nil, List.mem_singleton] at hk
        exact hk
    · right
      exact hold
  · rintro (rfl | hold)
    · left
      show (l.employee_no, l.event_date, pb.punch_time) ∈ (l.punch_table ++ [pb]).map
        (fun p => (l.employee_no, l.event_date, p.punch_time))
      rw [List.map_append]
      apply List.mem_append_right
      simp
    · right
      exact hold

theorem processEvent_fresh (ip : String) (flags : IFlags) (failAt : Nat → Bool)
    (s : ISt) (ev : AcsEvent) (date : String) (tod : Nat)
    (hemp : ¬ev.employeeNoString = "")
    (htime : ¬ev.time = "")
    (hparse : parseDeviceTime ev.time = some (date, tod))
    (hfresh : (ev.employeeNoString, date, tod) ∉ storeKeys s.logs)
    (hfail : failAt s.tick = false) :
    ∃ s1, processEvent ip flags failAt s ev = .ok s1 ∧
      s1.count = s.count + 1 ∧ s1.skipped = s.skipped ∧ s1.tick = s.tick + 1 ∧
      ∀ k, k ∈ storeKeys s1.logs ↔
        (k = (ev.employeeNoString, date, tod) ∨ k ∈ storeKeys s.logs) := by
  have hskip : ¬(ev.employeeNoString = "" ∨ ev.time = "") := fun h => h.elim hemp htime
  cases hfound : s.logs.find?
      (fun l => decide (l.employee_no = ev.employeeNoString) && decide (l.event_date = date))
      with
  | some l =>
    have hl := List.find?_some hfound
    simp only [Bool.and_eq_true, decide_eq_true_eq] at hl
    have hlm := List.mem_of_find?_eq_some hfound
    have hdup : (l.punch_table.any fun p => p.punch_time = tod) = false := by
      rw [List.any_eq_false]
      intro p hp
      simp only [decide_eq_true_eq]
      intro hpt
      apply hfresh
      have hmm := mem_storeKeys_intro s.logs l p hlm hp
      rwa [hl.1, hl.2, hpt] at hmm
    simp [processEvent, hskip, hparse, hfound, hdup, hfail]
    intro a b c
    have hiff := storeKeys_replaceLog_push ev.employeeNoString date l
      { name := s.nextId, punch_time := tod, punch_type := "Auto",
        device_id := if flags.punch_has_device_id then some ip else none,
        synced_to_employee_checkin := false, employee_checkin := none }
      (if flags.log_has_device_id then some ip else l.device_id) s.logs hfound (a, b, c)
    rw [hiff]
    simp [hl.1, hl.2]
  | none =>
    simp [processEvent, hskip, hparse, hfound, hfail]
    intro a b c
    rw [storeKeys_append, List.mem_append]
    constructor
    · rintro (hold | hnew)
      · exact Or.inr hold
      · refine Or.inl ?_
        simpa [storeKeys] using hnew
    · rintro (⟨rfl, rfl, rfl⟩ | hold)
      · refine Or.inr ?_
        simp [storeKeys]
      · exact Or.inl hold

theorem processEvents_fresh (ip : String) (flags : IFlags) (failAt : Nat → Bool) :
    ∀ (evs : List AcsEvent) (s : ISt),
      (∀ ev ∈ evs, ¬ev.employeeNoString = "" ∧ ¬ev.time = "" ∧
        (parseDeviceTime ev.time).isSome = true) →
      (evs.map evKey).Nodup →
      (∀ ev ∈ evs, evKey ev ∉ storeKeys s.logs) →
      (∀ i, failAt i = false) →
      ∃ s1, processEvents ip flags failAt s evs = .ok s1 ∧
        s1.count = s.count + evs.length ∧ s1.skipped = s.skipped ∧
        (∀ k, k ∈ storeKeys s1.logs ↔ k ∈ evs.map evKey ∨ k ∈ storeKeys s.logs)
  | [], s, _, _, _, _ => ⟨s, rfl, rfl, rfl, by simp⟩
  | ev :: evs, s, hwf, hnod, hfresh, hfail => by
    obtain ⟨hemp, htime, hps⟩ := hwf ev (List.mem_cons_self _ _)
    obtain ⟨⟨date, tod⟩, hparse⟩ := Option.isSome_iff_exists.mp hps
    have hkey : evKey ev = (ev.employeeNoString, date, tod) := by
      unfold evKey
      rw [hparse]
      rfl
    have hnod2 : (evKey ev :: evs.map evKey).Nodup := by
      simpa using hnod
    obtain ⟨s2, hstep, hc2, hsk2, ht2, hmem2⟩ :=
      processEvent_fresh ip flags failAt s ev date tod hemp htime hparse
        (by rw [← hkey]; exact hfresh ev (List.mem_cons_self _ _)) (hfail _)
    have hfresh2 : ∀ e2 ∈ evs, evKey e2 ∉ storeKeys s2.logs := by
      intro e2 he2 hmem
      rcases (hmem2 _).1 hmem with heq | hold
      · have hm : evKey ev ∈ evs.map evKey := by
          rw [← hkey] at heq
          rw [← heq]
          exact List.mem_map_of_mem _ he2
        exact (List.nodup_cons.1 hnod2).1 hm
      · exact hfresh e2 (List.mem_cons_of_mem _ he2) hold
    obtain ⟨s1, hrest, hc1, hsk1, hmem1⟩ :=
      processEvents_fresh ip flags failAt evs s2
        (fun e2 he2 => hwf e2 (List.mem_cons_of_mem _ he2))
        (List.nodup_cons.1 hnod2).2 hfresh2 hfail
    refine ⟨s1, ?_, ?_, ?_, ?_⟩
    · rw [show processEvents ip flags failAt s (ev :: evs) =
          processEvents ip flags failAt s2 evs from by simp only [processEvents, hstep]]
      exact hrest
    · rw [hc1, hc2]
      simp only [List.length_cons]
      omega
    · rw [hsk1, hsk2]
    · intro k
      rw [hmem1 k, hmem2 k]
      simp only [List.map_cons, List.mem_cons, hkey]
      constructor
      · rintro (h | h | h)
        · exact Or.inl (Or.inr h)
        · exact Or.inl (Or.inl h)
        · exact Or.inr h
      · rintro ((h | h) | h)
        · exact Or.inr (Or.inl h)
        · exact Or.inl h
        · exact Or.inr (Or.inr h)

/-- C4: pagination requests pages of fixed size 30 from position 0, advances
by the number of events returned, and stops exactly on an empty or short
page; for well-formed pairwise-distinct events with no save failures, a run
over a device whose probe reports its true event count produces `count` equal
to the sum of all page lengths (which equals the event count, every event
persisting exactly one punch), and a device reporting zero matches returns
immediately with `(0, 0)`. -/
theorem C4_pagination (label ip : String) (flags : IFlags) (failAt : Nat → Bool)
    (dev : Device) (nextId : Nat)
    (hwf : ∀ ev ∈ dev.events, ¬ev.employeeNoString = "" ∧ ¬ev.time = "" ∧
      (parseDeviceTime ev.time).isSome = true)
    (hkeys : (dev.events.map evKey).Nodup)
    (hfail : ∀ i, failAt i = false)
    (htm : dev.totalMatches = dev.events.length)
    (hle : dev.totalMatches ≤ 1500) :
    (dev.totalMatches = 0 →
      syncForSingleDevice label ip flags failAt dev nextId [] =
        .ok { logs := [], count := 0, skipped := 0, tick := 0, nextId := nextId }) ∧
    (0 < dev.totalMatches →
      ∃ s1, syncForSingleDevice label ip flags failAt dev nextId [] = .ok s1 ∧
        s1.count = ((devicePages dev).map List.length).sum ∧
        ((devicePages dev).map List.length).sum = dev.events.length ∧
        s1.skipped = 0 ∧
        punchCount s1.logs = dev.events.length) := by
  constructor
  · intro h0
    unfold syncForSingleDevice
    rw [if_pos h0]
  · intro hpos
    have hsum : ((devicePages dev).map List.length).sum = dev.events.length := by
      unfold devicePages
      exact pageSplit_sum _ _ (by omega)
    unfold syncForSingleDevice
    rw [if_neg (by omega), if_neg (by omega)]
    rw [syncLoop_eq_processEvents ip flags failAt dev _ 0 _ (by omega), List.drop_zero]
    obtain ⟨s1, hok, hc, hsk, -⟩ :=
      processEvents_fresh ip flags failAt dev.events
        { logs := [], count := 0, skipped := 0, tick := 0, nextId := nextId }
        hwf hkeys (by intro ev hev hmem; simp [storeKeys] at hmem) hfail
    refine ⟨s1, hok, ?_, hsum, hsk, ?_⟩
    · dsimp only at hc
      omega
    · obtain ⟨ha, -, -⟩ := processEvents_counters ip flags failAt dev.events _ s1 hok
      dsimp only at ha hc
      have hpc0 : punchCount ([] : List BLog) = 0 := rfl
      omega

set_option maxRecDepth 400000 in
set_option maxHeartbeats 1000000 in
/-- Witness: the 31-event device `c4Device` (one full page of 30 plus a short
page of 1) yields `count = 31 =` sum of page lengths with nothing skipped. -/
theorem C4_pagination_witness :
    (c4Device.totalMatches = 0 →
      syncForSingleDevice "L" "10.0.0.1" exIFlags noFail c4Device 5 [] =
        .ok { logs := [], count := 0, skipped := 0, tick := 0, nextId := 5 }) ∧
    (0 < c4Device.totalMatches →
      ∃ s1, syncForSingleDevice "L" "10.0.0.1" exIFlags noFail c4Device 5 [] = .ok s1 ∧
        s1.count = ((devicePages c4Device).map List.length).sum ∧
        ((devicePages c4Device).map List.length).sum = c4Device.events.length ∧
        s1.skipped = 0 ∧
        punchCount s1.logs = c4Device.events.length) :=
  C4_pagination "L" "10.0.0.1" exIFlags noFail c4Device 5
    (by decide) (by decide) (fun i => rfl) (by decide) (by decide)
